import Mathlib

/-!
Verification of the Brainstem memory coprocessor core (`src/brainstem`)
against its specification.

This file shallowly embeds the relevant parts of the Python source:

* `service.py` — scoring and token-estimation utilities;
* `store.py` — the in-memory repository (`remember`, `inspect`, `forget`,
  `recall`, `purge_expired`) together with `_can_read`, `_can_delete`,
  `_recall_score` and `_pack_recall`;
* `graph.py` — the candidate-merge and expansion-append phases of
  `GraphAugmentedRepository.recall`;
* `jobs.py` — the in-memory execution/retry path of `JobManager`;
* `model_registry.py` — `_stable_bucket` (including a full SHA-256
  implementation) and `ModelRegistry.select_version`.

Modelling conventions: Python `datetime` values are modelled as integer
timestamps (seconds); Python `float` quantities are modelled as rationals
(`ℚ`) — exact where the source relies only on ordering or on small exact
decimal constants; Python dictionaries keyed by id are modelled as
association lists; `uuid4`-generated fresh identifiers are passed in as
explicit arguments.  Character classes (`\w`, `str.lower`, `str.strip`)
are modelled on the ASCII fragment the repository's data exercises.
-/

namespace Brainstem

/-- Memory visibility scope, from `models.Scope` (`private`/`team`/`global`). -/
inductive Scope where
  | PRIVATE
  | TEAM
  | GLOBAL
deriving DecidableEq, Repr

/-- Memory type, from `models.MemoryType`. -/
inductive MemoryType where
  | EVENT
  | FACT
  | EPISODE
  | POLICY
deriving DecidableEq, Repr

/-- Trust level, from `models.TrustLevel`. -/
inductive TrustLevel where
  | TRUSTED_TOOL
  | USER_CLAIM
  | UNTRUSTED_WEB
deriving DecidableEq, Repr

/-- Python `\w` character class on the ASCII fragment: alphanumerics and
underscore (`re` module, as used by `service.estimate_tokens` and the
store's tokenizers). -/
def isWordChar (c : Char) : Bool :=
  c.isAlphanum || c == '_'

/-- Count the maximal runs of word characters in a character list, i.e.
the number of `\w+` matches.  `inWord` says whether the previous character
was a word character. -/
def countWordRuns : List Char → Bool → Nat
  | [], _ => 0
  | c :: cs, inWord =>
    if isWordChar c then
      (if inWord then 0 else 1) + countWordRuns cs true
    else
      countWordRuns cs false

/-- Number of `\w+` matches in a string, i.e. `len(re.findall(r"\w+", text))`. -/
def countWords (text : String) : Nat :=
  countWordRuns text.data false

/-- Embeds `service.estimate_tokens`: `max(1, int(words * 1.3))`.
Python's `int()` truncates toward zero, which on the nonnegative value
`words * 1.3` is the floor; for every word count reachable here the
binary-float product `words * 1.3` has the same floor as the exact
rational `words * 13/10` (the exact value is never within the float
rounding error of an integer it does not reach), so the rational floor
is the faithful model. -/
def estimate_tokens (text : String) : Nat :=
  max 1 ⌊(countWords text : ℚ) * (13 / 10)⌋₊

/-- Modelled from the spec: the spec's §4.1 states the concrete policy
`max(1, round(word_count * 1.3))`, with rounding rather than truncation.
This definition follows the spec's words, for comparison with
`estimate_tokens` (which embeds the source). -/
def estimate_tokens_spec_round (text : String) : ℤ :=
  max 1 (round ((countWords text : ℚ) * (13 / 10)))

theorem floor_mul_thirteen_tenths (w : ℕ) :
    ⌊(w : ℚ) * (13 / 10)⌋₊ = w * 13 / 10 := by
  have h : (w : ℚ) * (13 / 10) = ((w * 13 : ℕ) : ℚ) / ((10 : ℕ) : ℚ) := by
    push_cast
    ring
  rw [h, Nat.floor_div_nat, Nat.floor_natCast]

theorem estimate_tokens_eq_floor (text : String) :
    estimate_tokens text = max 1 (countWords text * 13 / 10) := by
  unfold estimate_tokens
  rw [floor_mul_thirteen_tenths]

theorem estimate_tokens_pos (text : String) : 1 ≤ estimate_tokens text := by
  unfold estimate_tokens
  exact le_max_left _ _

theorem estimate_tokens_monotone {s t : String}
    (h : countWords s ≤ countWords t) :
    estimate_tokens s ≤ estimate_tokens t := by
  rw [estimate_tokens_eq_floor, estimate_tokens_eq_floor]
  exact max_le_max le_rfl (Nat.div_le_div_right (Nat.mul_le_mul_right 13 h))

/-- Memory record, from `store.MemoryRecord` (timestamps as integer
seconds, floats as rationals; `type` and `trust_level` are stored as the
enum values the repository always writes). -/
structure MemoryRecord where
  memory_id : String
  tenant_id : String
  agent_id : String
  type : MemoryType
  scope : Scope
  text : String
  trust_level : TrustLevel
  confidence : ℚ
  salience : ℚ
  source_ref : Option String
  created_at : Int
  expires_at : Option Int
  tombstoned : Bool
deriving DecidableEq, Repr

/-- Remember input item, from `models.RememberInputItem`. -/
structure RememberInputItem where
  type : MemoryType
  text : String
  source_ref : Option String
  trust_level : TrustLevel
  confidence : Option ℚ
  salience : Option ℚ
  expires_at : Option Int
deriving DecidableEq, Repr

/-- Remember request, from `models.RememberRequest`. -/
structure RememberRequest where
  tenant_id : String
  agent_id : String
  scope : Scope
  items : List RememberInputItem
  idempotency_key : Option String
deriving DecidableEq, Repr

/-- Remember response, from `models.RememberResponse`. -/
structure RememberResponse where
  accepted : Nat
  rejected : Nat
  memory_ids : List String
  warnings : List String
deriving DecidableEq, Repr

/-- Recall budget, from `models.RecallBudget`. -/
structure RecallBudget where
  max_items : Nat
  max_tokens : Nat
deriving DecidableEq, Repr

/-- Recall filters, from `models.RecallFilters`. -/
structure RecallFilters where
  trust_min : ℚ
  types : Option (List MemoryType)
deriving DecidableEq, Repr

/-- Recall request, from `models.RecallRequest`. -/
structure RecallRequest where
  tenant_id : String
  agent_id : String
  query : String
  scope : Scope
  budget : RecallBudget
  filters : RecallFilters
deriving DecidableEq, Repr

/-- Memory snippet, from `models.MemorySnippet`. -/
structure MemorySnippet where
  memory_id : String
  type : MemoryType
  text : String
  confidence : ℚ
  salience : ℚ
  source_ref : Option String
  created_at : Int
deriving DecidableEq, Repr

/-- Recall response, from `models.RecallResponse`.  The fresh random
`trace_id` (and the `model_version`/`model_route` fields attached by the
outer layer) carry no content any claim mentions and are omitted. -/
structure RecallResponse where
  items : List MemorySnippet
  composed_tokens_estimate : Nat
  conflicts : List String
deriving DecidableEq, Repr

/-- Forget response, from `models.ForgetResponse`. -/
structure ForgetResponse where
  memory_id : String
  deleted : Bool
deriving DecidableEq, Repr

/-- Full memory details, from `models.MemoryDetails`. -/
structure MemoryDetails where
  memory_id : String
  tenant_id : String
  agent_id : String
  type : MemoryType
  scope : Scope
  text : String
  trust_level : TrustLevel
  confidence : ℚ
  salience : ℚ
  source_ref : Option String
  created_at : Int
  expires_at : Option Int
deriving DecidableEq, Repr

/-! ### Scoring utilities (`service.py`) -/

/-- ASCII lowering, modelling Python `str.lower()` on the ASCII fragment. -/
def lowerStr (s : String) : String :=
  String.mk (s.data.map Char.toLower)

/-- Character-list infix test: does `needle` occur contiguously in the
haystack? -/
def listInfix (needle : List Char) : List Char → Bool
  | [] => needle.isEmpty
  | c :: rest => needle.isPrefixOf (c :: rest) || listInfix needle rest

/-- Substring containment, modelling Python `needle in haystack`. -/
def containsSub (haystack needle : String) : Bool :=
  listInfix needle.data haystack.data

/-- Embeds `service.clamp`. -/
def clamp (value : ℚ) (low : ℚ := 0) (high : ℚ := 1) : ℚ :=
  max low (min high value)

/-- High-importance tokens from `service._HIGH_IMPORTANCE_TOKENS`. -/
def HIGH_IMPORTANCE_TOKENS : List String :=
  ["must", "required", "deadline", "blocked", "constraint", "critical",
   "policy", "security", "cannot"]

/-- Low-confidence tokens from `service._LOW_CONFIDENCE_TOKENS`. -/
def LOW_CONFIDENCE_TOKENS : List String :=
  ["maybe", "might", "possibly", "unsure", "guess"]

/-- Embeds `service.infer_salience`. -/
def infer_salience (text : String) (memory_type : MemoryType)
    (provided : Option ℚ) : ℚ :=
  match provided with
  | some p => clamp p
  | none =>
    let base : ℚ :=
      match memory_type with
      | MemoryType.EVENT => 45 / 100
      | MemoryType.FACT => 70 / 100
      | MemoryType.EPISODE => 60 / 100
      | MemoryType.POLICY => 90 / 100
    let lowered := lowerStr text
    let token_boost : ℚ :=
      ((HIGH_IMPORTANCE_TOKENS.filter (containsSub lowered ·)).length : ℚ)
        * (3 / 100)
    clamp (base + token_boost) (5 / 100) (99 / 100)

/-- Embeds `service.infer_confidence`. -/
def infer_confidence (text : String) (trust_level : TrustLevel)
    (provided : Option ℚ) : ℚ :=
  match provided with
  | some p => clamp p
  | none =>
    let base : ℚ :=
      match trust_level with
      | TrustLevel.TRUSTED_TOOL => 82 / 100
      | TrustLevel.USER_CLAIM => 66 / 100
      | TrustLevel.UNTRUSTED_WEB => 38 / 100
    let lowered := lowerStr text
    let uncertainty_penalty : ℚ :=
      ((LOW_CONFIDENCE_TOKENS.filter (containsSub lowered ·)).length : ℚ)
        * (5 / 100)
    clamp (base - uncertainty_penalty) (5 / 100) (98 / 100)

/-- Embeds `service.trust_score` (the repository only ever stores the
three enum values, so the dict lookup is total here). -/
def trust_score (trust_level : TrustLevel) : ℚ :=
  match trust_level with
  | TrustLevel.TRUSTED_TOOL => 1
  | TrustLevel.USER_CLAIM => 7 / 10
  | TrustLevel.UNTRUSTED_WEB => 35 / 100

/-! ### Repository helpers (`store.py`) -/

/-- Maximal runs of word characters of a character list, in order: the
matches of `re.findall(r"\w+", ...)`.  The accumulator holds the current
(reversed) partial run. -/
def wordRunsAux : List Char → List Char → List String
  | [], acc => if acc.isEmpty then [] else [String.mk acc.reverse]
  | c :: cs, acc =>
    if isWordChar c then
      wordRunsAux cs (c :: acc)
    else
      if acc.isEmpty then wordRunsAux cs [] else String.mk acc.reverse :: wordRunsAux cs []

/-- List of `\w+` matches of a string. -/
def wordRuns (s : String) : List String :=
  wordRunsAux s.data []

/-- Embeds `store._token_set`: `set(re.findall(r"\w+", text.lower()))`. -/
def token_set (text : String) : Finset String :=
  (wordRuns (lowerStr text)).toFinset

/-- Embeds `store._can_read` (the `datetime.now(UTC)` read is passed in
as `now`). -/
def can_read (now : Int) (agent_id : String) (requested_scope : Scope)
    (record : MemoryRecord) : Bool :=
  if record.tombstoned then false
  else if (match record.expires_at with
           | some e => decide (e ≤ now)
           | none => false) then false
  else if record.scope = Scope.GLOBAL then true
  else if record.scope = Scope.TEAM
      ∧ (requested_scope = Scope.TEAM ∨ requested_scope = Scope.GLOBAL) then true
  else if record.scope = Scope.PRIVATE ∧ record.agent_id = agent_id then true
  else false

/-- Embeds `store._can_delete`. -/
def can_delete (agent_id : String) (record : MemoryRecord) : Bool :=
  if record.tombstoned then false
  else if record.scope = Scope.PRIVATE ∧ record.agent_id ≠ agent_id then false
  else true

/-- Embeds `store._recall_score`. -/
def recall_score (now : Int) (query : String) (record : MemoryRecord) : ℚ :=
  let query_tokens := token_set query
  if query_tokens = ∅ then 0
  else
    let text_tokens := token_set record.text
    let lexical_overlap : ℚ :=
      ((query_tokens ∩ text_tokens).card : ℚ) / (query_tokens.card : ℚ)
    let recency_seconds : ℚ := max ((now - record.created_at : ℤ) : ℚ) 1
    let recency_bonus : ℚ := 1 / (1 + recency_seconds / 3600)
    lexical_overlap * (45 / 100)
      + record.salience * (25 / 100)
      + record.confidence * (20 / 100)
      + trust_score record.trust_level * (7 / 100)
      + recency_bonus * (3 / 100)

/-- Embeds `store._to_snippet`. -/
def to_snippet (record : MemoryRecord) : MemorySnippet :=
  { memory_id := record.memory_id
    type := record.type
    text := record.text
    confidence := record.confidence
    salience := record.salience
    source_ref := record.source_ref
    created_at := record.created_at }

/-- Embeds `store._to_details`. -/
def to_details (record : MemoryRecord) : MemoryDetails :=
  { memory_id := record.memory_id
    tenant_id := record.tenant_id
    agent_id := record.agent_id
    type := record.type
    scope := record.scope
    text := record.text
    trust_level := record.trust_level
    confidence := record.confidence
    salience := record.salience
    source_ref := record.source_ref
    created_at := record.created_at
    expires_at := record.expires_at }

/-- Embeds `store._has_negation`. -/
def has_negation (text : String) : Bool :=
  let lowered := " " ++ lowerStr text ++ " "
  [" not ", " no ", " never ", " cannot ", " can't ", " without "].any
    (containsSub lowered ·)

/-- Whether a pair of fact records triggers `store._detect_conflicts`'s
conflict test (nonempty token sets, Jaccard overlap at least one half,
differing negation). -/
def conflict_pair (left right : MemoryRecord) : Bool :=
  let left_tokens := token_set left.text
  let right_tokens := token_set right.text
  if left_tokens = ∅ ∨ right_tokens = ∅ then false
  else if ((left_tokens ∩ right_tokens).card : ℚ)
      / ((left_tokens ∪ right_tokens).card : ℚ) < 1 / 2 then false
  else if has_negation left.text = has_negation right.text then false
  else true

/-- Nested pair loop of `store._detect_conflicts` over the fact records. -/
def detect_conflicts_pairs : List MemoryRecord → List String
  | [] => []
  | left :: rest =>
    (rest.filter (conflict_pair left ·)).map
      (fun right => "possible_conflict:" ++ left.memory_id ++ ":" ++ right.memory_id)
      ++ detect_conflicts_pairs rest

/-- Embeds `store._detect_conflicts`. -/
def detect_conflicts (records : List MemoryRecord) : List String :=
  detect_conflicts_pairs (records.filter (·.type = MemoryType.FACT))

/-- Embeds the packing loop of `store._pack_recall`: walk the scored list
in order; break once `max_items` snippets are packed; skip (`continue`)
any record whose token estimate would push past `max_tokens`; otherwise
append the snippet, remember the selected record, and account its tokens. -/
def packGo (budget : RecallBudget) :
    List MemoryRecord → List MemorySnippet → List MemoryRecord → Nat →
    (List MemorySnippet × List MemoryRecord × Nat)
  | [], snippets, selected, tokens => (snippets, selected, tokens)
  | record :: rest, snippets, selected, tokens =>
    if budget.max_items ≤ snippets.length then (snippets, selected, tokens)
    else
      let item_tokens := estimate_tokens record.text
      if budget.max_tokens < tokens + item_tokens then
        packGo budget rest snippets selected tokens
      else
        packGo budget rest (snippets ++ [to_snippet record])
          (selected ++ [record]) (tokens + item_tokens)

/-- Stable descending sort by `_recall_score`, embedding
`sorted(..., key=..., reverse=True)` in `store._pack_recall` (Python's
sort is stable; so is `List.mergeSort`). -/
def sortByScoreDesc (now : Int) (query : String)
    (candidates : List MemoryRecord) : List MemoryRecord :=
  candidates.mergeSort
    (fun a b => decide (recall_score now query b ≤ recall_score now query a))

/-- Embeds `store._pack_recall`. -/
def pack_recall (now : Int) (payload : RecallRequest)
    (candidates : List MemoryRecord) : RecallResponse :=
  let scored := sortByScoreDesc now payload.query candidates
  let packed := packGo payload.budget scored [] [] 0
  { items := packed.1
    composed_tokens_estimate := packed.2.2
    conflicts := detect_conflicts packed.2.1 }

/-! ### In-memory repository state and operations (`store.InMemoryRepository`) -/

/-- State of `InMemoryRepository`: the `_records` dict in insertion order
and the `_idempotency` dict keyed by `(tenant_id, idempotency_key)`.
The dict key invariant (each `memory_id` appears at most once) is carried
as a hypothesis where a theorem needs it. -/
structure StoreState where
  records : List MemoryRecord
  idempotency : List ((String × String) × RememberResponse)
deriving DecidableEq, Repr

/-- Empty repository state. -/
def StoreState.empty : StoreState := { records := [], idempotency := [] }

/-- Dict lookup on `_records` by memory id. -/
def findRecord (s : StoreState) (memory_id : String) : Option MemoryRecord :=
  s.records.find? (fun r => r.memory_id = memory_id)

/-- Dict lookup on `_idempotency`. -/
def findIdem (s : StoreState) (key : String × String) : Option RememberResponse :=
  (s.idempotency.find? (fun e => e.1 = key)).map (·.2)

/-- Truthiness of `payload.idempotency_key` in Python (`None` and the
empty string are falsy). -/
def keyTruthy : Option String → Bool
  | none => false
  | some k => k ≠ ""

/-- Record constructed for one input item by `InMemoryRepository.remember`. -/
def buildRecord (payload : RememberRequest) (item : RememberInputItem)
    (memory_id : String) (now : Int) : MemoryRecord :=
  { memory_id := memory_id
    tenant_id := payload.tenant_id
    agent_id := payload.agent_id
    type := item.type
    scope := payload.scope
    text := item.text.trim
    trust_level := item.trust_level
    confidence := infer_confidence item.text item.trust_level item.confidence
    salience := infer_salience item.text item.type item.salience
    source_ref := item.source_ref
    created_at := now
    expires_at := item.expires_at
    tombstoned := false }

/-- Embeds `InMemoryRepository.remember`.  The `uuid4`-generated ids are
passed in as `fresh_ids` (one per item, in order). -/
def remember (s : StoreState) (payload : RememberRequest)
    (fresh_ids : List String) (now : Int) : StoreState × RememberResponse :=
  if keyTruthy payload.idempotency_key then
    let key := (payload.tenant_id, payload.idempotency_key.getD "")
    match findIdem s key with
    | some existing =>
      (s, { accepted := existing.accepted
            rejected := existing.rejected
            memory_ids := existing.memory_ids
            warnings := existing.warnings ++ ["idempotency_replay"] })
    | none =>
      let pairs := payload.items.zip fresh_ids
      let new_records := pairs.map (fun p => buildRecord payload p.1 p.2 now)
      let memory_ids := pairs.map (·.2)
      let response : RememberResponse :=
        { accepted := memory_ids.length, rejected := 0
          memory_ids := memory_ids, warnings := [] }
      ({ records := s.records ++ new_records
         idempotency := s.idempotency ++ [(key, response)] }, response)
  else
    let pairs := payload.items.zip fresh_ids
    let new_records := pairs.map (fun p => buildRecord payload p.1 p.2 now)
    let memory_ids := pairs.map (·.2)
    let response : RememberResponse :=
      { accepted := memory_ids.length, rejected := 0
        memory_ids := memory_ids, warnings := [] }
    ({ s with records := s.records ++ new_records }, response)

/-- Embeds `InMemoryRepository.inspect`. -/
def inspect (now : Int) (s : StoreState) (tenant_id agent_id : String)
    (scope : Scope) (memory_id : String) : Option MemoryDetails :=
  match findRecord s memory_id with
  | none => none
  | some record =>
    if record.tenant_id ≠ tenant_id then none
    else if ¬ can_read now agent_id scope record then none
    else some (to_details record)

/-- Embeds `InMemoryRepository.forget`.  Mutating the single record found
under the dict key is modelled by mapping over the record list (under the
dict key invariant at most one entry matches). -/
def forget (s : StoreState) (tenant_id agent_id memory_id : String) :
    StoreState × ForgetResponse :=
  match findRecord s memory_id with
  | none => (s, { memory_id := memory_id, deleted := false })
  | some record =>
    if record.tenant_id ≠ tenant_id then
      (s, { memory_id := memory_id, deleted := false })
    else if ¬ can_delete agent_id record then
      (s, { memory_id := memory_id, deleted := false })
    else
      ({ s with
          records := s.records.map (fun r =>
            if r.memory_id = memory_id then { r with tombstoned := true } else r) },
       { memory_id := memory_id, deleted := true })

/-- Candidate filter of `InMemoryRepository.recall`. -/
def recallCandidates (now : Int) (s : StoreState) (payload : RecallRequest) :
    List MemoryRecord :=
  s.records.filter (fun record =>
    decide (record.tenant_id = payload.tenant_id)
      && can_read now payload.agent_id payload.scope record
      && decide (payload.filters.trust_min ≤ trust_score record.trust_level)
      && (match payload.filters.types with
          | none => true
          | some allowed => decide (record.type ∈ allowed)))

/-- Embeds `InMemoryRepository.recall` (named `recallMem` here because
`recall` is taken by a Mathlib command). -/
def recallMem (now : Int) (s : StoreState) (payload : RecallRequest) :
    RecallResponse :=
  pack_recall now payload (recallCandidates now s payload)

/-- Whether `purge_expired`'s loop tombstones a given record: same
tenant, not already tombstoned, expiry present and at or before the
cutoff `now - grace_hours` (in hours). -/
def purgeQualifies (cutoff : Int) (tenant_id : String)
    (record : MemoryRecord) : Bool :=
  decide (record.tenant_id = tenant_id) && !record.tombstoned
    && (match record.expires_at with
        | some e => decide (e ≤ cutoff)
        | none => false)

/-- Loop body of `InMemoryRepository.purge_expired` over the record list. -/
def purgeGo (cutoff : Int) (tenant_id : String) :
    List MemoryRecord → (List MemoryRecord × Nat)
  | [] => ([], 0)
  | record :: rest =>
    let tail := purgeGo cutoff tenant_id rest
    if purgeQualifies cutoff tenant_id record then
      ({ record with tombstoned := true } :: tail.1, tail.2 + 1)
    else
      (record :: tail.1, tail.2)

/-- Embeds `InMemoryRepository.purge_expired` (cutoff
`now - timedelta(hours=grace_hours)` in seconds). -/
def purge_expired (now : Int) (s : StoreState) (tenant_id : String)
    (grace_hours : Int) : StoreState × Nat :=
  let cutoff := now - grace_hours * 3600
  let out := purgeGo cutoff tenant_id s.records
  ({ s with records := out.1 }, out.2)

/-! ### Graph-augmented recall (`graph.py`, `GraphAugmentedRepository.recall`) -/

/-- One merge pass of the candidate-merge loops in
`GraphAugmentedRepository.recall`: walk `source`, skipping entries that
satisfy `skip` or are already accumulated, appending the rest in order. -/
def mergePass (skip : String → Bool) (acc : List String) :
    List String → List String
  | [] => acc
  | memory_id :: rest =>
    if skip memory_id || decide (memory_id ∈ acc) then
      mergePass skip acc rest
    else
      mergePass skip (acc ++ [memory_id]) rest

/-- Embeds the three candidate-merge loops of
`GraphAugmentedRepository.recall` (`graph.py` lines 751-768): the first
pass over `related_ids` skips ids in `exclude_ids` or in the query-seed
set, the second pass over `related_ids` skips only `exclude_ids`, the
third pass walks `query_seed_candidates` skipping `exclude_ids`; every
pass deduplicates against what is already accumulated. -/
def merge_candidates (exclude_ids related_ids query_seed_candidates : List String) :
    List String :=
  let pass1 := mergePass
    (fun m => decide (m ∈ exclude_ids) || decide (m ∈ query_seed_candidates))
    [] related_ids
  let pass2 := mergePass (fun m => decide (m ∈ exclude_ids)) pass1 related_ids
  mergePass (fun m => decide (m ∈ exclude_ids)) pass2 query_seed_candidates

/-- Modelled from the spec: merge "in this order, deduplicated: first ids
present in both query-seed and edge-related (prefer semantic overlap),
then remaining edge_related, then remaining query_seed_candidates"
(spec §4.3 step 4).  This definition follows the spec's words, for
comparison with `merge_candidates` (which embeds the source). -/
def merge_candidates_spec (exclude_ids related_ids query_seed_candidates : List String) :
    List String :=
  let both := mergePass
    (fun m => decide (m ∈ exclude_ids) || !(decide (m ∈ query_seed_candidates)))
    [] related_ids
  let withRelated := mergePass (fun m => decide (m ∈ exclude_ids)) both related_ids
  mergePass (fun m => decide (m ∈ exclude_ids)) withRelated query_seed_candidates

/-- Keep the first occurrence of every element (used to state what the
merge loops compute). -/
def dedupFirst : List String → List String
  | [] => []
  | x :: xs => x :: dedupFirst (xs.filter (fun y => y ≠ x))
termination_by l => l.length
decreasing_by
  simp only [List.length_cons]
  exact Nat.lt_succ_of_le (List.length_filter_le _ _)

/-- Count the maximal runs of non-whitespace characters: the length of
Python's `text.split()` (splitting on whitespace runs, dropping empty
pieces). -/
def countSplitRuns : List Char → Bool → Nat
  | [], _ => 0
  | c :: cs, inWord =>
    if c.isWhitespace then
      countSplitRuns cs false
    else
      (if inWord then 0 else 1) + countSplitRuns cs true

/-- Token accounting of the expansion-append loop in
`GraphAugmentedRepository.recall`: `max(1, len(snippet.text.split()))`,
the number of whitespace-separated words. -/
def expansion_tokens (text : String) : Nat :=
  max 1 (countSplitRuns text.data false)

/-- Snippet built from inspect details in the expansion loop. -/
def snippet_of_details (details : MemoryDetails) : MemorySnippet :=
  { memory_id := details.memory_id
    type := details.type
    text := details.text
    confidence := details.confidence
    salience := details.salience
    source_ref := details.source_ref
    created_at := details.created_at }

/-- Embeds the expansion-append loop of `GraphAugmentedRepository.recall`
(`graph.py` lines 772-798): for each candidate id, stop once `max_items`
items are held; materialize via the repository's `inspect` under the
original tenant/agent/scope (skipping invisible candidates); skip any
candidate whose split-token estimate would push past `max_tokens`;
otherwise append and account. -/
def expandLoop (now : Int) (s : StoreState) (payload : RecallRequest) :
    List String → List MemorySnippet → Nat → (List MemorySnippet × Nat)
  | [], items, tokens => (items, tokens)
  | memory_id :: rest, items, tokens =>
    if payload.budget.max_items ≤ items.length then (items, tokens)
    else
      match inspect now s payload.tenant_id payload.agent_id payload.scope memory_id with
      | none => expandLoop now s payload rest items tokens
      | some details =>
        let estimated := expansion_tokens details.text
        if payload.budget.max_tokens < tokens + estimated then
          expandLoop now s payload rest items tokens
        else
          expandLoop now s payload rest (items ++ [snippet_of_details details])
            (tokens + estimated)

/-- Final stage of `GraphAugmentedRepository.recall`: extend the base
response along the merged candidate list, preserving conflicts. -/
def graph_expand (now : Int) (s : StoreState) (payload : RecallRequest)
    (base : RecallResponse) (candidate_ids : List String) : RecallResponse :=
  let out := expandLoop now s payload candidate_ids base.items
    base.composed_tokens_estimate
  { items := out.1
    composed_tokens_estimate := out.2
    conflicts := base.conflicts }

/-! ### Job manager, in-memory mode (`jobs.py`) -/

/-- Job kind, from `jobs.JobKind`. -/
inductive JobKind where
  | REFLECT
  | TRAIN
  | CLEANUP
deriving DecidableEq, Repr

/-- Job status, from `jobs.JobStatus`. -/
inductive JobStatus where
  | QUEUED
  | RUNNING
  | COMPLETED
  | FAILED
deriving DecidableEq, Repr

/-- Job record, from `jobs.JobRecord`.  The business payload and result
dicts are opaque to every claim considered here; `result` only records
whether a result was attached. -/
structure JobRecord where
  job_id : String
  kind : JobKind
  tenant_id : String
  agent_id : String
  status : JobStatus
  created_at : Int
  started_at : Option Int
  finished_at : Option Int
  result : Option Unit
  error : Option String
  attempts : Nat
  max_attempts : Nat
deriving DecidableEq, Repr

/-- State of a `JobManager` in in-memory mode: the `_jobs` dict in
insertion order, the FIFO `_queue` of job ids, and `_dead_letters`. -/
structure JobState where
  jobs : List JobRecord
  queue : List String
  dead_letters : List String
deriving DecidableEq, Repr

/-- Empty job-manager state. -/
def JobState.empty : JobState := { jobs := [], queue := [], dead_letters := [] }

/-- Dict lookup on `_jobs`. -/
def findJob (s : JobState) (job_id : String) : Option JobRecord :=
  s.jobs.find? (fun j => j.job_id = job_id)

/-- Replace the job with the given id (dict mutation under the key
invariant). -/
def updateJob (s : JobState) (job_id : String) (f : JobRecord → JobRecord) :
    JobState :=
  { s with jobs := s.jobs.map (fun j => if j.job_id = job_id then f j else j) }

/-- Embeds `JobManager._enqueue` for the in-memory backend: build a
queued job (attempts 0, `max_attempts` as `max(1, ...)` of the explicit
value, else the manager default which is itself `max(1, ...)`), add it to
the jobs dict and push its id on the queue. -/
def enqueueJob (s : JobState) (job_id : String) (kind : JobKind)
    (tenant_id agent_id : String) (default_max_attempts : Nat)
    (max_attempts : Option Nat) (now : Int) : JobState :=
  let job : JobRecord :=
    { job_id := job_id
      kind := kind
      tenant_id := tenant_id
      agent_id := agent_id
      status := JobStatus.QUEUED
      created_at := now
      started_at := none
      finished_at := none
      result := none
      error := none
      attempts := 0
      max_attempts :=
        match max_attempts with
        | none => max 1 default_max_attempts
        | some m => max 1 m }
  { jobs := s.jobs ++ [job]
    queue := s.queue ++ [job_id]
    dead_letters := s.dead_letters }

/-- Outcome of one `_execute_job` run: `none` is success, `some e` is an
exception with message `e`. -/
abbrev ExecOutcome := Option String

/-- Embeds `JobManager._execute_inmemory`: mark the job running and bump
`attempts`; on success mark completed with a result; on exception record
the error and either re-queue (when `attempts < max_attempts`, attempts
already bumped) or mark failed, stamp `finished_at`, and append to the
dead letters. -/
def executeInMemory (s : JobState) (job_id : String) (outcome : ExecOutcome)
    (now : Int) : JobState :=
  match findJob s job_id with
  | none => s
  | some job =>
    let bumped := { job with
      status := JobStatus.RUNNING
      started_at := some now
      attempts := job.attempts + 1 }
    match outcome with
    | none =>
      updateJob s job_id (fun _ => { bumped with
        status := JobStatus.COMPLETED
        finished_at := some now
        result := some ()
        error := none })
    | some e =>
      if bumped.attempts < bumped.max_attempts then
        { updateJob s job_id (fun _ => { bumped with
            status := JobStatus.QUEUED
            error := some e }) with
          queue := s.queue ++ [job_id] }
      else
        { updateJob s job_id (fun _ => { bumped with
            status := JobStatus.FAILED
            finished_at := some now
            error := some e }) with
          dead_letters := s.dead_letters ++ [job_id] }

/-- Embeds `JobManager.process_next` for the in-memory backend: pop the
queue head (returning `false` on an empty queue) and execute it with the
given outcome. -/
def processNext (s : JobState) (outcome : ExecOutcome) (now : Int) :
    JobState × Bool :=
  match s.queue with
  | [] => (s, false)
  | job_id :: rest =>
    (executeInMemory { s with queue := rest } job_id outcome now, true)

/-- Sort key of `list_dead_letters`: `finished_at or created_at`. -/
def deadLetterKey (j : JobRecord) : Int :=
  match j.finished_at with
  | some f => f
  | none => j.created_at

/-- Embeds `JobManager.list_dead_letters` for the in-memory backend:
resolve the recorded dead-letter ids against the jobs dict, keep the
tenant's rows, sort newest first (stable), truncate to `max(1, limit)`. -/
def list_dead_letters (s : JobState) (tenant_id : String) (limit : Nat) :
    List JobRecord :=
  let records := (s.dead_letters.filterMap (findJob s ·)).filter
    (fun j => j.tenant_id = tenant_id)
  (records.mergeSort (fun a b => decide (deadLetterKey b ≤ deadLetterKey a))).take
    (max 1 limit)

/-- Drive one job through a list of execution outcomes with
`process_next` steps (the single worker loop of the in-memory manager
restricted to a one-job queue). -/
def runOutcomes (s : JobState) (outcomes : List ExecOutcome) (now : Int) :
    JobState :=
  match outcomes with
  | [] => s
  | outcome :: rest => runOutcomes (processNext s outcome now).1 rest now

/-! ### Model registry (`model_registry.py`)

The stable rollout bucket hashes `"<kind>:<tenant_id>"` with SHA-256 and
reduces the first 32 bits modulo 100.  SHA-256 is implemented here over
`Nat` with explicit reduction modulo `2^32`; its first output word equals
`int(hexdigest()[:8], 16)` because `hexdigest` zero-pads each state word
to eight hex characters. -/

/-- Modulus for 32-bit words. -/
def M32 : Nat := 4294967296

/-- Right rotation of a 32-bit word. -/
def rotr32 (n x : Nat) : Nat :=
  (x >>> n ||| x <<< (32 - n)) % M32

/-- Bitwise complement of a 32-bit word. -/
def not32 (x : Nat) : Nat := 4294967295 - x

/-- SHA-256 `Ch` function. -/
def sha_ch (e f g : Nat) : Nat := (e &&& f) ^^^ (not32 e &&& g)

/-- SHA-256 `Maj` function. -/
def sha_maj (a b c : Nat) : Nat := (a &&& b) ^^^ (a &&& c) ^^^ (b &&& c)

/-- SHA-256 lowercase sigma-0. -/
def sigma0 (x : Nat) : Nat := rotr32 7 x ^^^ rotr32 18 x ^^^ (x >>> 3)

/-- SHA-256 lowercase sigma-1. -/
def sigma1 (x : Nat) : Nat := rotr32 17 x ^^^ rotr32 19 x ^^^ (x >>> 10)

/-- SHA-256 uppercase Sigma-0. -/
def bigSigma0 (x : Nat) : Nat := rotr32 2 x ^^^ rotr32 13 x ^^^ rotr32 22 x

/-- SHA-256 uppercase Sigma-1. -/
def bigSigma1 (x : Nat) : Nat := rotr32 6 x ^^^ rotr32 11 x ^^^ rotr32 25 x

/-- SHA-256 round constants (FIPS 180-4 4.2.2, written in decimal). -/
def shaK : List Nat :=
  [1116352408, 1899447441, 3049323471, 3921009573, 961987163,
   1508970993, 2453635748, 2870763221, 3624381080, 310598401,
   607225278, 1426881987, 1925078388, 2162078206, 2614888103,
   3248222580, 3835390401, 4022224774, 264347078, 604807628,
   770255983, 1249150122, 1555081692, 1996064986, 2554220882,
   2821834349, 2952996808, 3210313671, 3336571891, 3584528711,
   113926993, 338241895, 666307205, 773529912, 1294757372,
   1396182291, 1695183700, 1986661051, 2177026350, 2456956037,
   2730485921, 2820302411, 3259730800, 3345764771, 3516065817,
   3600352804, 4094571909, 275423344, 430227734, 506948616,
   659060556, 883997877, 958139571, 1322822218, 1537002063,
   1747873779, 1955562222, 2024104815, 2227730452, 2361852424,
   2428436474, 2756734187, 3204031479, 3329325298]

/-- SHA-256 initial hash state (FIPS 180-4 5.3.3, written in decimal). -/
def shaH0 : List Nat :=
  [1779033703, 3144134277, 1013904242, 2773480762,
   1359893119, 2600822924, 528734635, 1541459225]

/-- SHA-256 message padding: append `0x80`, zero bytes up to 56 mod 64,
then the bit length as eight big-endian bytes. -/
def padMessage (msg : List Nat) : List Nat :=
  let len := msg.length
  let zeros := (119 - len % 64) % 64
  let bitLen := len * 8
  msg ++ [128] ++ List.replicate zeros 0 ++
    [(bitLen >>> 56) % 256, (bitLen >>> 48) % 256, (bitLen >>> 40) % 256,
     (bitLen >>> 32) % 256, (bitLen >>> 24) % 256, (bitLen >>> 16) % 256,
     (bitLen >>> 8) % 256, bitLen % 256]

/-- Pack bytes into big-endian 32-bit words. -/
def bytesToWords : List Nat → List Nat
  | b0 :: b1 :: b2 :: b3 :: rest =>
    (b0 <<< 24 ||| b1 <<< 16 ||| b2 <<< 8 ||| b3) :: bytesToWords rest
  | _ => []

/-- Split a byte list into 64-byte blocks (structural recursion on a
fuel bound so the definition reduces definitionally; each step consumes
at least one byte, so any fuel at least the length is enough). -/
def chunk64F : Nat → List Nat → List (List Nat)
  | 0, _ => []
  | _, [] => []
  | fuel + 1, b :: rest => ((b :: rest).take 64) :: chunk64F fuel ((b :: rest).drop 64)

/-- Split a byte list into 64-byte blocks. -/
def chunk64 (l : List Nat) : List (List Nat) :=
  chunk64F l.length l

/-- Extend the 16-word message schedule by `k` further words. -/
def extendW (ws : List Nat) : Nat → List Nat
  | 0 => ws
  | k + 1 =>
    let t := ws.length
    let w := (sigma1 (ws.getD (t - 2) 0) + ws.getD (t - 7) 0
      + sigma0 (ws.getD (t - 15) 0) + ws.getD (t - 16) 0) % M32
    extendW (ws ++ [w]) k

/-- One SHA-256 compression round on the eight-word working state. -/
def shaRound (st : List Nat) (k w : Nat) : List Nat :=
  match st with
  | [a, b, c, d, e, f, g, h] =>
    let t1 := (h + bigSigma1 e + sha_ch e f g + k + w) % M32
    let t2 := (bigSigma0 a + sha_maj a b c) % M32
    [(t1 + t2) % M32, a, b, c, (d + t1) % M32, e, f, g]
  | other => other

/-- Compress one 64-byte block into the hash state. -/
def compressBlock (hstate : List Nat) (block : List Nat) : List Nat :=
  let ws := extendW (bytesToWords block) 48
  let final := (shaK.zip ws).foldl (fun st kw => shaRound st kw.1 kw.2) hstate
  (hstate.zip final).map (fun p => (p.1 + p.2) % M32)

/-- SHA-256 of a byte sequence, as the eight 32-bit state words of the
digest (big-endian word order, matching `hexdigest`). -/
def sha256Words (msg : List Nat) : List Nat :=
  (chunk64 (padMessage msg)).foldl compressBlock shaH0

/-- UTF-8 encoding of a single code point. -/
def utf8Bytes (c : Char) : List Nat :=
  let n := c.toNat
  if n < 0x80 then [n]
  else if n < 0x800 then
    [0xC0 ||| (n >>> 6), 0x80 ||| (n &&& 0x3F)]
  else if n < 0x10000 then
    [0xE0 ||| (n >>> 12), 0x80 ||| ((n >>> 6) &&& 0x3F), 0x80 ||| (n &&& 0x3F)]
  else
    [0xF0 ||| (n >>> 18), 0x80 ||| ((n >>> 12) &&& 0x3F),
     0x80 ||| ((n >>> 6) &&& 0x3F), 0x80 ||| (n &&& 0x3F)]

/-- UTF-8 bytes of a string, modelling `key.encode("utf-8")`. -/
def strBytes (s : String) : List Nat :=
  (s.data.map utf8Bytes).flatten

/-- Embeds `model_registry._stable_bucket`:
`int(sha256(key).hexdigest()[:8], 16) % 100`; the first eight hex digits
of the digest are exactly its first 32-bit state word. -/
def stable_bucket (key : String) : Nat :=
  ((sha256Words (strBytes key)).headD 0) % 100

/-- Model state, from `model_registry.ModelState` (the metadata map and
`updated_at` play no part in version selection). -/
structure ModelState where
  active_version : String
  canary_version : Option String
  rollout_percent : Int
  tenant_allowlist : List String
deriving DecidableEq, Repr

/-- Embeds `ModelRegistry.select_version`. -/
def select_version (model_kind tenant_id : String) (state : ModelState) :
    String × String :=
  match state.canary_version with
  | none => (state.active_version, "active")
  | some canary =>
    if tenant_id ∈ state.tenant_allowlist then (canary, "canary_allowlist")
    else if state.rollout_percent ≤ 0 then (state.active_version, "active")
    else if (stable_bucket (model_kind ++ ":" ++ tenant_id) : ℤ)
        < state.rollout_percent then (canary, "canary_percent")
    else (state.active_version, "active")

/-- Validation of the SHA-256 implementation against the FIPS 180-2 test
vector for `"abc"`. -/
theorem sha256_abc :
    sha256Words (strBytes "abc") =
      [3128432319, 2399260650, 1094795486, 1571693091,
       2953011619, 2518121116, 3021012833, 4060091821] := by
  rfl

/-- Validation of the SHA-256 implementation on the empty input. -/
theorem sha256_empty :
    sha256Words [] =
      [3820012610, 2566659092, 2600203464, 2574235940,
       665731556, 1687917388, 2761267483, 2018687061] := by
  rfl

/-! ### Claim C4 — `estimate_tokens` policy -/

/-- Claim C4, counterexample: the claim states
`estimate_tokens(text) = max(1, round(word_count * 1.3))`, but the source
computes `max(1, int(words * 1.3))`, truncating.  On a three-word text
the two differ: the code yields `int(3.9) = 3` while the claimed rounding
policy yields `round(3.9) = 4`. -/
theorem estimate_tokens_round_counterexample :
    countWords "one two three" = 3 ∧
      estimate_tokens "one two three" = 3 ∧
      estimate_tokens_spec_round "one two three" = 4 ∧
      (estimate_tokens "one two three" : ℤ)
        ≠ estimate_tokens_spec_round "one two three" := by
  have hw : countWords "one two three" = 3 := by rfl
  have h1 : estimate_tokens "one two three" = 3 := by
    rw [estimate_tokens_eq_floor, hw]
    decide
  have h2 : estimate_tokens_spec_round "one two three" = 4 := by
    unfold estimate_tokens_spec_round
    rw [hw]
    norm_num [round_eq]
  refine ⟨hw, h1, h2, ?_⟩
  rw [h1, h2]
  decide

/-- Claim C4 (amended: the concrete policy truncates rather than rounds):
for every text, `estimate_tokens(text)` equals
`max(1, ⌊word_count * 1.3⌋)` where `word_count` counts the `\w+` matches;
the function is deterministic (it is a function of the text alone),
monotonic in word count, and always at least 1. -/
theorem estimate_tokens_policy :
    (∀ text, estimate_tokens text = max 1 (countWords text * 13 / 10)) ∧
    (∀ s t, countWords s ≤ countWords t →
      estimate_tokens s ≤ estimate_tokens t) ∧
    (∀ text, 1 ≤ estimate_tokens text) :=
  ⟨estimate_tokens_eq_floor,
   fun _ _ h => estimate_tokens_monotone h,
   estimate_tokens_pos⟩

/-- Witness for `estimate_tokens_policy` at concrete inputs. -/
theorem estimate_tokens_policy_witness :
    countWords "alpha beta" ≤ countWords "alpha beta gamma delta" ∧
      estimate_tokens "alpha beta" ≤ estimate_tokens "alpha beta gamma delta" :=
  ⟨by decide, estimate_tokens_policy.2.1 "alpha beta" "alpha beta gamma delta" (by decide)⟩

/-! ### Shared list helpers -/

theorem find?_map_update {α : Type} (l : List α) (p : α → Bool) (f : α → α)
    (hf : ∀ a, p a = true → p (f a) = true) :
    (l.map (fun a => if p a then f a else a)).find? p = (l.find? p).map f := by
  induction l with
  | nil => rfl
  | cons a t ih =>
    by_cases h : p a = true
    · simp only [List.map_cons, h, if_true, List.find?_cons, hf a h, h]
      rfl
    · have h0 : p a = false := Bool.eq_false_iff.mpr h
      simp only [List.map_cons, h0, Bool.false_eq_true, if_false, List.find?_cons, h0, ih]

/-! ### Claim C10 — `purge_expired` -/

theorem purgeGo_eq (cutoff : Int) (tenant : String) (l : List MemoryRecord) :
    purgeGo cutoff tenant l =
      (l.map (fun r => if purgeQualifies cutoff tenant r
          then { r with tombstoned := true } else r),
       (l.filter (purgeQualifies cutoff tenant)).length) := by
  induction l with
  | nil => rfl
  | cons r t ih =>
    by_cases h : purgeQualifies cutoff tenant r = true
    · simp [purgeGo, ih, h, List.filter_cons]
    · have h0 : purgeQualifies cutoff tenant r = false := Bool.eq_false_iff.mpr h
      simp [purgeGo, ih, h0, List.filter_cons]

theorem purgeGo_of_none (cutoff : Int) (tenant : String) (l : List MemoryRecord)
    (h : ∀ r ∈ l, purgeQualifies cutoff tenant r = false) :
    purgeGo cutoff tenant l = (l, 0) := by
  induction l with
  | nil => rfl
  | cons r t ih =>
    have hr := h r (List.mem_cons_self r t)
    simp [purgeGo, hr, ih (fun x hx => h x (List.mem_cons_of_mem r hx))]

theorem purgeQualifies_after (cutoff : Int) (tenant : String) (r : MemoryRecord) :
    purgeQualifies cutoff tenant
      (if purgeQualifies cutoff tenant r then { r with tombstoned := true } else r)
        = false := by
  by_cases h : purgeQualifies cutoff tenant r = true
  · simp only [h, if_true]
    unfold purgeQualifies
    simp
  · have h0 : purgeQualifies cutoff tenant r = false := Bool.eq_false_iff.mpr h
    simp only [h0, Bool.false_eq_true, if_false]

/-- Claim C10: `purge_expired(t, h)` tombstones exactly the records of
tenant `t` that are not already tombstoned and whose expiry is at or
before `now - h` hours (records with no expiry never qualify), returns
their count, leaves every other record — and every field other than the
tombstone — unchanged (the idempotency log included), and immediately
re-running it on the unchanged store returns 0. -/
theorem purge_expired_exact (now : Int) (s : StoreState) (tenant : String)
    (grace_hours : Int) :
    purge_expired now s tenant grace_hours =
      ({ s with records := s.records.map (fun r =>
            if purgeQualifies (now - grace_hours * 3600) tenant r
            then { r with tombstoned := true } else r) },
       (s.records.filter (purgeQualifies (now - grace_hours * 3600) tenant)).length) ∧
    purge_expired now (purge_expired now s tenant grace_hours).1 tenant grace_hours
      = ((purge_expired now s tenant grace_hours).1, 0) := by
  have hq : ∀ r ∈ s.records.map (fun r =>
      if purgeQualifies (now - grace_hours * 3600) tenant r
      then { r with tombstoned := true } else r),
      purgeQualifies (now - grace_hours * 3600) tenant r = false := by
    intro r hr
    rw [List.mem_map] at hr
    obtain ⟨r0, _, hr0⟩ := hr
    rw [← hr0]
    exact purgeQualifies_after _ _ _
  have h1 : purge_expired now s tenant grace_hours =
      ({ s with records := s.records.map (fun r =>
            if purgeQualifies (now - grace_hours * 3600) tenant r
            then { r with tombstoned := true } else r) },
       (s.records.filter (purgeQualifies (now - grace_hours * 3600) tenant)).length) := by
    unfold purge_expired
    simp only [purgeGo_eq]
  refine ⟨h1, ?_⟩
  rw [h1]
  unfold purge_expired
  simp only [purgeGo_of_none _ _ _ hq]

/-! ### Claim C9 — `forget` semantics -/

/-- Concrete record for the C9 counterexample: a global-scope record of
tenant `t` whose expiry is already past at time 10. -/
def c9Record : MemoryRecord :=
  { memory_id := "m1", tenant_id := "t", agent_id := "a"
    type := MemoryType.FACT, scope := Scope.GLOBAL, text := "x"
    trust_level := TrustLevel.USER_CLAIM, confidence := 1
    salience := 1, source_ref := none, created_at := 0
    expires_at := some 0, tombstoned := false }

/-- Store holding just `c9Record`. -/
def c9Store : StoreState := { records := [c9Record], idempotency := [] }

/-- Claim C9, counterexample: the claim says `forget` returns
`{deleted: false}` and changes nothing whenever the target is not visible
to the caller, expired records included.  But `_can_delete` never checks
expiry: at time 10 the record below is invisible to every reader
(`_can_read` is false), yet `forget` tombstones it and returns
`{deleted: true}`. -/
theorem forget_expired_counterexample :
    can_read 10 "a" Scope.GLOBAL c9Record = false ∧
    (forget c9Store "t" "a" "m1").2.deleted = true ∧
    findRecord (forget c9Store "t" "a" "m1").1 "m1"
      = some { c9Record with tombstoned := true } := by
  refine ⟨by decide, by decide, by decide⟩

theorem can_delete_eq_false_of_tombstoned (agent : String) (r : MemoryRecord)
    (h : r.tombstoned = true) : can_delete agent r = false := by
  simp [can_delete, h]

theorem can_delete_eq_false_of_private_other (agent : String) (r : MemoryRecord)
    (h1 : r.scope = Scope.PRIVATE) (h2 : r.agent_id ≠ agent) :
    can_delete agent r = false := by
  unfold can_delete
  by_cases ht : r.tombstoned
  · simp [ht]
  · simp [ht, h1, h2]

theorem can_delete_eq_true (agent : String) (r : MemoryRecord)
    (ht : r.tombstoned = false)
    (hp : r.scope = Scope.PRIVATE → r.agent_id = agent) :
    can_delete agent r = true := by
  unfold can_delete
  by_cases hs : r.scope = Scope.PRIVATE
  · simp [ht, hs, hp hs]
  · simp [ht, hs]

/-- Claim C9 (amended: `forget` ignores expiry and request scope; its
refusal conditions are exactly those of `_can_delete` plus missing-id and
tenant mismatch): `forget` returns `{deleted: false}` and leaves the
store unchanged when the id is absent, the tenant does not match, the
record is already tombstoned (so a tombstone is never reverted), or the
record is private and authored by another agent; in every other case —
expired or not, whatever the record's scope — it sets `tombstoned := true`
on the target, changes nothing else, and returns `{deleted: true}`. -/
theorem forget_semantics (s : StoreState) (tenant agent mid : String) :
    (findRecord s mid = none →
      forget s tenant agent mid = (s, { memory_id := mid, deleted := false })) ∧
    (∀ r, findRecord s mid = some r →
      ((r.tenant_id ≠ tenant ∨ r.tombstoned = true
          ∨ (r.scope = Scope.PRIVATE ∧ r.agent_id ≠ agent)) →
        forget s tenant agent mid = (s, { memory_id := mid, deleted := false })) ∧
      (r.tenant_id = tenant → r.tombstoned = false →
        (r.scope = Scope.PRIVATE → r.agent_id = agent) →
        forget s tenant agent mid =
          ({ s with records := s.records.map (fun x =>
              if x.memory_id = mid then { x with tombstoned := true } else x) },
           { memory_id := mid, deleted := true }) ∧
        findRecord (forget s tenant agent mid).1 mid
          = some { r with tombstoned := true })) := by
  constructor
  · intro h
    unfold forget
    rw [h]
  · intro r hr
    constructor
    · intro hcase
      unfold forget
      rw [hr]
      rcases hcase with hT | hB | hP
      · simp [hT]
      · by_cases ht : r.tenant_id ≠ tenant
        · simp [ht]
        · simp [ht, can_delete_eq_false_of_tombstoned agent r hB]
      · by_cases ht : r.tenant_id ≠ tenant
        · simp [ht]
        · simp [ht, can_delete_eq_false_of_private_other agent r hP.1 hP.2]
    · intro hT hB hP
      have hdel := can_delete_eq_true agent r hB hP
      have hmain : forget s tenant agent mid =
          ({ s with records := s.records.map (fun x =>
              if x.memory_id = mid then { x with tombstoned := true } else x) },
           { memory_id := mid, deleted := true }) := by
        unfold forget
        rw [hr]
        simp [hT, hdel]
      refine ⟨hmain, ?_⟩
      rw [hmain]
      unfold findRecord
      have := find?_map_update s.records (fun x => decide (x.memory_id = mid))
        (fun x => { x with tombstoned := true }) (fun a ha => ha)
      simp only [decide_eq_true_eq] at this
      rw [this]
      unfold findRecord at hr
      rw [hr]
      rfl

/-- Witness for `forget_semantics`: an untombstoned team-scope record is
deleted by a same-tenant caller. -/
theorem forget_semantics_witness :
    forget { records := [{ memory_id := "w9", tenant_id := "t", agent_id := "a"
                           type := MemoryType.FACT, scope := Scope.TEAM, text := "x"
                           trust_level := TrustLevel.USER_CLAIM, confidence := 1
                           salience := 1, source_ref := none, created_at := 0
                           expires_at := none, tombstoned := false }]
             idempotency := [] } "t" "b" "w9"
      = ({ records := [{ memory_id := "w9", tenant_id := "t", agent_id := "a"
                         type := MemoryType.FACT, scope := Scope.TEAM, text := "x"
                         trust_level := TrustLevel.USER_CLAIM, confidence := 1
                         salience := 1, source_ref := none, created_at := 0
                         expires_at := none, tombstoned := true }]
           idempotency := [] }, { memory_id := "w9", deleted := true }) := by
  have h := (forget_semantics
    { records := [{ memory_id := "w9", tenant_id := "t", agent_id := "a"
                    type := MemoryType.FACT, scope := Scope.TEAM, text := "x"
                    trust_level := TrustLevel.USER_CLAIM, confidence := 1
                    salience := 1, source_ref := none, created_at := 0
                    expires_at := none, tombstoned := false }]
      idempotency := [] } "t" "b" "w9").2
    { memory_id := "w9", tenant_id := "t", agent_id := "a"
      type := MemoryType.FACT, scope := Scope.TEAM, text := "x"
      trust_level := TrustLevel.USER_CLAIM, confidence := 1
      salience := 1, source_ref := none, created_at := 0
      expires_at := none, tombstoned := false }
    (by decide)
  have h2 := (h.2 (by decide) (by decide) (by intro hs; cases hs)).1
  rw [h2]
  decide

/-! ### Claim C1 — private-scope isolation -/

theorem can_read_private_other (now : Int) (B : String) (sc : Scope)
    (r : MemoryRecord) (hscope : r.scope = Scope.PRIVATE)
    (hne : r.agent_id ≠ B) : can_read now B sc r = false := by
  unfold can_read
  split_ifs with h1 h2 h3 h4 h5
  · rfl
  · rfl
  · rw [hscope] at h3
    cases h3
  · rw [hscope] at h4
    exact absurd h4.1 (by decide)
  · exact absurd h5.2 hne
  · rfl

theorem packGo_items_mem (budget : RecallBudget) (l : List MemoryRecord)
    (snips : List MemorySnippet) (sel : List MemoryRecord) (toks : Nat) :
    ∀ x ∈ (packGo budget l snips sel toks).1,
      x ∈ snips ∨ ∃ r ∈ l, x = to_snippet r := by
  induction l generalizing snips sel toks with
  | nil =>
    intro x hx
    simp only [packGo] at hx
    exact Or.inl hx
  | cons r t ih =>
    intro x hx
    simp only [packGo] at hx
    by_cases h1 : budget.max_items ≤ snips.length
    · rw [if_pos h1] at hx
      exact Or.inl hx
    · rw [if_neg h1] at hx
      by_cases h2 : budget.max_tokens < toks + estimate_tokens r.text
      · rw [if_pos h2] at hx
        rcases ih _ _ _ x hx with h | ⟨r2, hr2, hxr⟩
        · exact Or.inl h
        · exact Or.inr ⟨r2, List.mem_cons_of_mem _ hr2, hxr⟩
      · rw [if_neg h2] at hx
        rcases ih _ _ _ x hx with h | ⟨r2, hr2, hxr⟩
        · rcases List.mem_append.mp h with h3 | h3
          · exact Or.inl h3
          · exact Or.inr ⟨r, List.mem_cons_self r t, List.mem_singleton.mp h3⟩
        · exact Or.inr ⟨r2, List.mem_cons_of_mem _ hr2, hxr⟩

theorem recallMem_items_from_candidates (now : Int) (s : StoreState)
    (payload : RecallRequest) :
    ∀ x ∈ (recallMem now s payload).items,
      ∃ r ∈ recallCandidates now s payload, x = to_snippet r := by
  intro x hx
  have hmem := packGo_items_mem payload.budget
    (sortByScoreDesc now payload.query (recallCandidates now s payload)) [] [] 0 x hx
  rcases hmem with h | ⟨r, hr, hxr⟩
  · cases h
  · exact ⟨r, (List.mergeSort_perm _ _).mem_iff.mp hr, hxr⟩

/-- Claim C1: a private record authored by `A` is fully isolated from any
other agent `B` of the same tenant — `inspect` by `B` under any requested
scope and at any time returns nothing; the record's id never appears in a
recall by `B`, whatever tenant, scope, budget and filters the request
carries; and `forget` by `B` (against any tenant) returns
`{deleted: false}` and leaves the store — in particular the record's
tombstone — unchanged.  The dict key invariant (one record per id) is the
`huniq` hypothesis. -/
theorem private_scope_isolation (s : StoreState) (r : MemoryRecord) (B : String)
    (hmem : r ∈ s.records) (hscope : r.scope = Scope.PRIVATE)
    (hne : r.agent_id ≠ B)
    (huniq : ∀ r2 ∈ s.records, r2.memory_id = r.memory_id → r2 = r) :
    (∀ now sc, inspect now s r.tenant_id B sc r.memory_id = none) ∧
    (∀ now payload, payload.agent_id = B →
      r.memory_id ∉ (recallMem now s payload).items.map (fun it => it.memory_id)) ∧
    (∀ tenant, forget s tenant B r.memory_id
      = (s, { memory_id := r.memory_id, deleted := false })) := by
  refine ⟨?_, ?_, ?_⟩
  · intro now sc
    unfold inspect
    cases hf : findRecord s r.memory_id with
    | none => rfl
    | some r0 =>
      have hr0 : r0 = r := by
        apply huniq r0 (List.mem_of_find?_eq_some hf)
        have := List.find?_some hf
        exact of_decide_eq_true this
      subst hr0
      have hcr := can_read_private_other now B sc r0 hscope hne
      show (if r0.tenant_id ≠ r0.tenant_id then none
        else if ¬ can_read now B sc r0 = true then none
        else some (to_details r0)) = none
      rw [if_neg (by simp), if_pos (by simp [hcr])]
  · intro now payload hagent hin
    rw [List.mem_map] at hin
    obtain ⟨x, hx, hxid⟩ := hin
    obtain ⟨r2, hr2, hxr⟩ := recallMem_items_from_candidates now s payload x hx
    unfold recallCandidates at hr2
    rw [List.mem_filter] at hr2
    have hid : r2.memory_id = r.memory_id := by
      rw [hxr] at hxid
      exact hxid
    have hr2r : r2 = r := huniq r2 hr2.1 hid
    have hread := hr2.2
    rw [hr2r] at hread
    simp only [Bool.and_eq_true] at hread
    have := hread.1.1.2
    rw [hagent] at this
    rw [can_read_private_other now B payload.scope r hscope hne] at this
    cases this
  · intro tenant
    unfold forget
    cases hf : findRecord s r.memory_id with
    | none => rfl
    | some r0 =>
      have hr0 : r0 = r := by
        apply huniq r0 (List.mem_of_find?_eq_some hf)
        have := List.find?_some hf
        exact of_decide_eq_true this
      subst hr0
      by_cases ht : r0.tenant_id ≠ tenant
      · simp [ht]
      · simp [ht, can_delete_eq_false_of_private_other B r0 hscope hne]

/-- Concrete private record for the C1 witness. -/
def c1Record : MemoryRecord :=
  { memory_id := "p1", tenant_id := "t", agent_id := "a"
    type := MemoryType.FACT, scope := Scope.PRIVATE, text := "secret plan"
    trust_level := TrustLevel.TRUSTED_TOOL, confidence := 1
    salience := 1, source_ref := none, created_at := 0
    expires_at := none, tombstoned := false }

/-- Store holding just `c1Record`. -/
def c1Store : StoreState := { records := [c1Record], idempotency := [] }

/-- Witness for `private_scope_isolation` at a concrete store and reader. -/
theorem private_scope_isolation_witness :
    inspect 5 c1Store "t" "b" Scope.GLOBAL "p1" = none ∧
    forget c1Store "t" "b" "p1"
      = (c1Store, { memory_id := "p1", deleted := false }) := by
  have h := private_scope_isolation c1Store c1Record "b"
    (by decide) (by decide) (by decide) (by decide)
  exact ⟨h.1 5 Scope.GLOBAL, h.2.2 "t"⟩

/-! ### Claim C3 — token-budgeted packing -/

theorem packGo_budget (budget : RecallBudget) (l : List MemoryRecord) :
    ∀ snips sel toks,
    (snips.map (fun it => estimate_tokens it.text)).sum = toks →
    toks ≤ budget.max_tokens →
    snips.length ≤ budget.max_items →
    ((packGo budget l snips sel toks).1.map
        (fun it => estimate_tokens it.text)).sum
      = (packGo budget l snips sel toks).2.2 ∧
    (packGo budget l snips sel toks).2.2 ≤ budget.max_tokens ∧
    (packGo budget l snips sel toks).1.length ≤ budget.max_items := by
  induction l with
  | nil =>
    intro snips sel toks hsum htok hlen
    exact ⟨hsum, htok, hlen⟩
  | cons r t ih =>
    intro snips sel toks hsum htok hlen
    simp only [packGo]
    by_cases h1 : budget.max_items ≤ snips.length
    · rw [if_pos h1]
      exact ⟨hsum, htok, hlen⟩
    · rw [if_neg h1]
      by_cases h2 : budget.max_tokens < toks + estimate_tokens r.text
      · rw [if_pos h2]
        exact ih snips sel toks hsum htok hlen
      · rw [if_neg h2]
        apply ih
        · rw [List.map_append, List.sum_append]
          rw [hsum]
          rfl
        · exact Nat.le_of_not_lt h2
        · rw [List.length_append]
          exact Nat.succ_le_of_lt (Nat.lt_of_not_le h1)

theorem sortByScoreDesc_perm (now : Int) (query : String)
    (candidates : List MemoryRecord) :
    (sortByScoreDesc now query candidates).Perm candidates :=
  List.mergeSort_perm candidates _

theorem sortByScoreDesc_sorted (now : Int) (query : String)
    (candidates : List MemoryRecord) :
    (sortByScoreDesc now query candidates).Pairwise
      (fun a b => recall_score now query b ≤ recall_score now query a) := by
  have h := @List.sorted_mergeSort MemoryRecord
    (fun a b =>
      decide (recall_score now query b ≤ recall_score now query a))
    (fun a b c hab hbc =>
      decide_eq_true (le_trans (of_decide_eq_true hbc) (of_decide_eq_true hab)))
    (fun a b => by
      rcases le_total (recall_score now query b) (recall_score now query a) with h | h
      · simp [h]
      · simp [h])
    candidates
  exact h.imp (fun hab => of_decide_eq_true hab)

/-- Claim C3: every repository recall response satisfies
`sum(estimate_tokens(item.text)) = composed_tokens_estimate ≤ max_tokens`
and `len(items) ≤ max_items`, and the items are produced by the greedy
pack over the candidates sorted by descending `_recall_score` — a sorted
permutation of the filtered candidates — where a candidate whose token
estimate would overflow `max_tokens` is skipped (the loop continues, it
does not stop). -/
theorem recall_budget_invariants (now : Int) (s : StoreState)
    (payload : RecallRequest) :
    ((recallMem now s payload).items.map
        (fun it => estimate_tokens it.text)).sum
      = (recallMem now s payload).composed_tokens_estimate ∧
    (recallMem now s payload).composed_tokens_estimate
      ≤ payload.budget.max_tokens ∧
    (recallMem now s payload).items.length ≤ payload.budget.max_items ∧
    (recallMem now s payload).items
      = (packGo payload.budget
          (sortByScoreDesc now payload.query (recallCandidates now s payload))
          [] [] 0).1 ∧
    (sortByScoreDesc now payload.query (recallCandidates now s payload)).Perm
      (recallCandidates now s payload) ∧
    (sortByScoreDesc now payload.query
        (recallCandidates now s payload)).Pairwise
      (fun a b => recall_score now payload.query b
        ≤ recall_score now payload.query a) := by
  have h := packGo_budget payload.budget
    (sortByScoreDesc now payload.query (recallCandidates now s payload))
    [] [] 0 rfl (Nat.zero_le _) (Nat.zero_le _)
  exact ⟨h.1, h.2.1, h.2.2, rfl,
    sortByScoreDesc_perm now payload.query _,
    sortByScoreDesc_sorted now payload.query _⟩

/-! ### Claim C2 — idempotent `remember` -/

theorem remember_first_call (s : StoreState) (p : RememberRequest)
    (ids : List String) (now : Int) (k : String)
    (hk : p.idempotency_key = some k) (hk0 : k ≠ "")
    (habs : findIdem s (p.tenant_id, k) = none) :
    remember s p ids now =
      ({ records := s.records
            ++ (p.items.zip ids).map (fun q => buildRecord p q.1 q.2 now)
         idempotency := s.idempotency ++
            [((p.tenant_id, k),
              { accepted := ((p.items.zip ids).map (fun q => q.2)).length
                rejected := 0
                memory_ids := (p.items.zip ids).map (fun q => q.2)
                warnings := [] })] },
       { accepted := ((p.items.zip ids).map (fun q => q.2)).length
         rejected := 0
         memory_ids := (p.items.zip ids).map (fun q => q.2)
         warnings := [] }) := by
  have hkt : keyTruthy (some k) = true := decide_eq_true hk0
  unfold remember
  rw [hk]
  rw [hkt]
  simp only [if_true, Option.getD_some, habs]

theorem remember_replay (s : StoreState) (p : RememberRequest)
    (ids : List String) (now : Int) (k : String)
    (hk : p.idempotency_key = some k) (hk0 : k ≠ "")
    (orig : RememberResponse)
    (hfound : findIdem s (p.tenant_id, k) = some orig) :
    remember s p ids now =
      (s, { accepted := orig.accepted
            rejected := orig.rejected
            memory_ids := orig.memory_ids
            warnings := orig.warnings ++ ["idempotency_replay"] }) := by
  have hkt : keyTruthy (some k) = true := decide_eq_true hk0
  unfold remember
  rw [hk]
  rw [hkt]
  simp only [if_true, Option.getD_some, hfound]

theorem findIdem_append_self (s : StoreState) (key : String × String)
    (resp : RememberResponse) (entries : List ((String × String) × RememberResponse))
    (habs : findIdem s key = none)
    (hstep : entries = s.idempotency ++ [(key, resp)]) :
    findIdem { s with idempotency := entries } key = some resp := by
  unfold findIdem at habs ⊢
  rw [hstep, List.find?_append]
  have h0 : s.idempotency.find? (fun e => decide (e.1 = key)) = none := by
    cases h : s.idempotency.find? (fun e => decide (e.1 = key)) with
    | none => rfl
    | some v =>
      rw [h] at habs
      cases habs
  rw [h0]
  simp [List.find?_cons]

/-- Claim C2: a `remember` carrying a fresh idempotency key `k` stores
its response under `(tenant_id, k)` and appends one record per item (so
the store grows by `len(items)`); every later `remember` with the same
tenant and key — whatever its items or fresh ids — returns the original
accepted count and memory ids with exactly the single warning
`"idempotency_replay"` added, and leaves the state untouched, so the
store grows by `len(items)` exactly once, on the first call only. -/
theorem remember_idempotent (s : StoreState) (p : RememberRequest)
    (ids : List String) (now : Int) (k : String)
    (hk : p.idempotency_key = some k) (hk0 : k ≠ "")
    (habs : findIdem s (p.tenant_id, k) = none)
    (hlen : ids.length = p.items.length) :
    (remember s p ids now).1.records.length
        = s.records.length + p.items.length ∧
    (remember s p ids now).2.accepted = p.items.length ∧
    (remember s p ids now).2.rejected = 0 ∧
    (remember s p ids now).2.warnings = [] ∧
    findIdem (remember s p ids now).1 (p.tenant_id, k)
        = some (remember s p ids now).2 ∧
    (∀ p2 ids2 now2, p2.tenant_id = p.tenant_id →
      p2.idempotency_key = some k →
      remember (remember s p ids now).1 p2 ids2 now2 =
        ((remember s p ids now).1,
         { accepted := (remember s p ids now).2.accepted
           rejected := (remember s p ids now).2.rejected
           memory_ids := (remember s p ids now).2.memory_ids
           warnings := ["idempotency_replay"] })) := by
  have hmain := remember_first_call s p ids now k hk hk0 habs
  have hzip : (p.items.zip ids).length = p.items.length := by
    rw [List.length_zip, hlen, min_self]
  have hids : ((p.items.zip ids).map (fun q => q.2)).length = p.items.length := by
    rw [List.length_map, hzip]
  refine ⟨?_, ?_, ?_, ?_, ?_, ?_⟩
  · rw [hmain]
    simp only [List.length_append, List.length_map, hzip]
  · rw [hmain]
    exact hids
  · rw [hmain]
  · rw [hmain]
  · rw [hmain]
    exact findIdem_append_self s (p.tenant_id, k) _ _ habs rfl
  · intro p2 ids2 now2 ht2 hk2
    have hfound : findIdem (remember s p ids now).1 (p2.tenant_id, k)
        = some (remember s p ids now).2 := by
      rw [ht2, hmain]
      exact findIdem_append_self s (p.tenant_id, k) _ _ habs rfl
    have hrep := remember_replay (remember s p ids now).1 p2 ids2 now2 k
      hk2 hk0 (remember s p ids now).2 hfound
    rw [hrep, hmain]
    rfl

/-- Concrete first-call input for the C2 witness. -/
def c2Request : RememberRequest :=
  { tenant_id := "t", agent_id := "a", scope := Scope.TEAM
    items := [{ type := MemoryType.FACT, text := "pin the rollout"
                source_ref := none, trust_level := TrustLevel.USER_CLAIM
                confidence := some 1, salience := some 1, expires_at := none }]
    idempotency_key := some "idem-1" }

/-- Witness for `remember_idempotent` on a concrete store. -/
theorem remember_idempotent_witness :
    (remember StoreState.empty c2Request ["m1"] 0).1.records.length = 1 ∧
    (remember (remember StoreState.empty c2Request ["m1"] 0).1
        c2Request ["m2"] 7).2.warnings = ["idempotency_replay"] := by
  have h := remember_idempotent StoreState.empty c2Request ["m1"] 0 "idem-1"
    rfl (by decide) rfl rfl
  refine ⟨h.1, ?_⟩
  have h2 := h.2.2.2.2.2 c2Request ["m2"] 7 rfl rfl
  rw [h2]

/-! ### Claim C7 — expansion candidate merge order -/

theorem mem_dedupFirst : ∀ (l : List String) (a : String),
    a ∈ dedupFirst l ↔ a ∈ l := by
  intro l
  induction l using dedupFirst.induct with
  | case1 =>
    intro a
    simp [dedupFirst]
  | case2 x xs ih =>
    intro a
    rw [dedupFirst]
    by_cases hax : a = x
    · simp [hax]
    · simp only [List.mem_cons, hax, false_or]
      rw [ih a]
      simp [List.mem_filter, hax]

theorem mergePass_eq (skip : String → Bool) :
    ∀ (l acc : List String),
    mergePass skip acc l
      = acc ++ dedupFirst (l.filter
          (fun m => !skip m && !(decide (m ∈ acc)))) := by
  intro l
  induction l with
  | nil =>
    intro acc
    simp [mergePass, dedupFirst]
  | cons m rest ih =>
    intro acc
    simp only [mergePass]
    by_cases hc : (skip m || decide (m ∈ acc)) = true
    · rw [if_pos hc]
      rw [ih acc]
      have hc2 : skip m = true ∨ m ∈ acc := by simpa using hc
      have hm : (!skip m && !(decide (m ∈ acc))) = false := by
        rcases hc2 with h | h
        · simp [h]
        · simp [h]
      rw [List.filter_cons, hm]
      simp
    · rw [if_neg hc]
      rw [ih (acc ++ [m])]
      simp only [Bool.or_eq_true, decide_eq_true_eq, not_or] at hc
      push_neg at hc
      obtain ⟨hs, ha⟩ := hc
      have hs0 : skip m = false := Bool.eq_false_iff.mpr hs
      have hm : (!skip m && !(decide (m ∈ acc))) = true := by
        simp [hs0, ha]
      rw [List.filter_cons, hm]
      simp only [if_true]
      rw [dedupFirst]
      rw [List.filter_filter]
      have hfe : rest.filter (fun a => decide (a ≠ m)
            && (!skip a && !(decide (a ∈ acc))))
          = rest.filter (fun a => !skip a && !(decide (a ∈ acc ++ [m]))) := by
        apply List.filter_congr
        intro y _
        by_cases hys : skip y = true
        · simp [hys]
        · have hys0 : skip y = false := Bool.eq_false_iff.mpr hys
          by_cases hya : y ∈ acc
          · simp [hys0, hya, List.mem_append]
          · by_cases hym : y = m
            · simp [hys0, hya, hym, List.mem_append]
            · simp [hys0, hya, hym, List.mem_append]
      rw [hfe]
      simp [List.append_assoc]

/-- Claim C7 (amended: the first merge loop skips — rather than selects —
the ids that are also query-seed candidates): the expansion candidate
list is, deduplicated and with excluded ids omitted, first the
edge-related ids not among the query-seed candidates, then the
edge-related ids that are also query-seed candidates, then the remaining
query-seed candidates. -/
theorem merge_candidates_order (exclude related qseed : List String) :
    merge_candidates exclude related qseed =
      dedupFirst (related.filter
          (fun m => !(decide (m ∈ exclude)) && !(decide (m ∈ qseed))))
      ++ dedupFirst (related.filter
          (fun m => !(decide (m ∈ exclude)) && decide (m ∈ qseed)))
      ++ dedupFirst (qseed.filter
          (fun m => !(decide (m ∈ exclude)) && !(decide (m ∈ related)))) := by
  unfold merge_candidates
  rw [mergePass_eq, mergePass_eq, mergePass_eq]
  have h1 : related.filter (fun m =>
        !(decide (m ∈ exclude) || decide (m ∈ qseed))
          && !(decide (m ∈ ([] : List String))))
      = related.filter (fun m =>
        !(decide (m ∈ exclude)) && !(decide (m ∈ qseed))) := by
    apply List.filter_congr
    intro y _
    simp
  rw [h1]
  set seg1 := dedupFirst (related.filter
    (fun m => !(decide (m ∈ exclude)) && !(decide (m ∈ qseed)))) with hseg1
  have hmem1 : ∀ m, m ∈ seg1 ↔ m ∈ related ∧ m ∉ exclude ∧ m ∉ qseed := by
    intro m
    rw [hseg1, mem_dedupFirst, List.mem_filter]
    simp
  simp only [List.nil_append]
  have h2 : related.filter (fun m =>
        !(decide (m ∈ exclude)) && !(decide (m ∈ seg1)))
      = related.filter (fun m =>
        !(decide (m ∈ exclude)) && decide (m ∈ qseed)) := by
    apply List.filter_congr
    intro y hy
    by_cases hye : y ∈ exclude
    · simp [hye]
    · by_cases hyq : y ∈ qseed
      · have : y ∉ seg1 := fun hin => ((hmem1 y).mp hin).2.2 hyq
        simp [hye, hyq, this]
      · have : y ∈ seg1 := (hmem1 y).mpr ⟨hy, hye, hyq⟩
        simp [hye, hyq, this]
  simp only [h2]
  set seg2 := dedupFirst (related.filter
    (fun m => !(decide (m ∈ exclude)) && decide (m ∈ qseed))) with hseg2
  have hmem12 : ∀ m, m ∈ seg1 ++ seg2 ↔ m ∈ related ∧ m ∉ exclude := by
    intro m
    rw [List.mem_append, hmem1, hseg2, mem_dedupFirst, List.mem_filter]
    simp only [Bool.and_eq_true, Bool.not_eq_true', decide_eq_false_iff_not,
      decide_eq_true_eq]
    constructor
    · rintro (⟨h1, h2, _⟩ | ⟨h1, h2, _⟩)
      · exact ⟨h1, h2⟩
      · exact ⟨h1, h2⟩
    · rintro ⟨h1, h2⟩
      by_cases hq : m ∈ qseed
      · exact Or.inr ⟨h1, h2, hq⟩
      · exact Or.inl ⟨h1, h2, hq⟩
  have h3 : qseed.filter (fun m =>
        !(decide (m ∈ exclude)) && !(decide (m ∈ seg1 ++ seg2)))
      = qseed.filter (fun m =>
        !(decide (m ∈ exclude)) && !(decide (m ∈ related))) := by
    apply List.filter_congr
    intro y _
    by_cases hye : y ∈ exclude
    · simp [hye]
    · by_cases hyr : y ∈ related
      · have : y ∈ seg1 ++ seg2 := (hmem12 y).mpr ⟨hyr, hye⟩
        simp [hye, hyr, this]
      · have : y ∉ seg1 ++ seg2 := fun hin => hyr ((hmem12 y).mp hin).1
        simp [hye, hyr, this]
  simp only [h3]

/-- Claim C7, counterexample: with `related_ids = ["r", "b"]` and
`query_seed_candidates = ["b", "q"]` (no exclusions), the claimed order
puts the shared id `"b"` first, but the source's first merge loop skips
ids that are in the query-seed set, so the code yields
`["r", "b", "q"]`, not `["b", "r", "q"]`. -/
theorem merge_candidates_counterexample :
    merge_candidates [] ["r", "b"] ["b", "q"] = ["r", "b", "q"] ∧
    merge_candidates_spec [] ["r", "b"] ["b", "q"] = ["b", "r", "q"] ∧
    merge_candidates [] ["r", "b"] ["b", "q"]
      ≠ merge_candidates_spec [] ["r", "b"] ["b", "q"] := by
  refine ⟨by decide, by decide, by decide⟩

/-! ### Claim C8 — expansion token accounting -/

theorem expandLoop_cons_full (now : Int) (s : StoreState)
    (payload : RecallRequest) (mid : String) (rest : List String)
    (items : List MemorySnippet) (tokens : Nat)
    (h1 : payload.budget.max_items ≤ items.length) :
    expandLoop now s payload (mid :: rest) items tokens = (items, tokens) := by
  simp [expandLoop, h1]

theorem expandLoop_cons_invisible (now : Int) (s : StoreState)
    (payload : RecallRequest) (mid : String) (rest : List String)
    (items : List MemorySnippet) (tokens : Nat)
    (h1 : ¬ payload.budget.max_items ≤ items.length)
    (hins : inspect now s payload.tenant_id payload.agent_id payload.scope mid
      = none) :
    expandLoop now s payload (mid :: rest) items tokens
      = expandLoop now s payload rest items tokens := by
  simp [expandLoop, h1, hins]

theorem expandLoop_cons_skip (now : Int) (s : StoreState)
    (payload : RecallRequest) (mid : String) (rest : List String)
    (items : List MemorySnippet) (tokens : Nat) (d : MemoryDetails)
    (h1 : ¬ payload.budget.max_items ≤ items.length)
    (hins : inspect now s payload.tenant_id payload.agent_id payload.scope mid
      = some d)
    (h2 : payload.budget.max_tokens < tokens + expansion_tokens d.text) :
    expandLoop now s payload (mid :: rest) items tokens
      = expandLoop now s payload rest items tokens := by
  simp [expandLoop, h1, hins, h2]

theorem expandLoop_cons_take (now : Int) (s : StoreState)
    (payload : RecallRequest) (mid : String) (rest : List String)
    (items : List MemorySnippet) (tokens : Nat) (d : MemoryDetails)
    (h1 : ¬ payload.budget.max_items ≤ items.length)
    (hins : inspect now s payload.tenant_id payload.agent_id payload.scope mid
      = some d)
    (h2 : ¬ payload.budget.max_tokens < tokens + expansion_tokens d.text) :
    expandLoop now s payload (mid :: rest) items tokens
      = expandLoop now s payload rest (items ++ [snippet_of_details d])
          (tokens + expansion_tokens d.text) := by
  simp [expandLoop, h1, hins, h2]

theorem expandLoop_spec (now : Int) (s : StoreState) (payload : RecallRequest) :
    ∀ (cands : List String) (items : List MemorySnippet) (tokens : Nat),
    tokens ≤ payload.budget.max_tokens →
    items.length ≤ payload.budget.max_items →
    ∃ appended,
      (expandLoop now s payload cands items tokens).1 = items ++ appended ∧
      (expandLoop now s payload cands items tokens).2
        = tokens + (appended.map (fun it => expansion_tokens it.text)).sum ∧
      (expandLoop now s payload cands items tokens).2
        ≤ payload.budget.max_tokens ∧
      (expandLoop now s payload cands items tokens).1.length
        ≤ payload.budget.max_items ∧
      (∀ it ∈ appended, ∃ mid ∈ cands, ∃ d,
        inspect now s payload.tenant_id payload.agent_id payload.scope mid
          = some d ∧ it = snippet_of_details d) := by
  intro cands
  induction cands with
  | nil =>
    intro items tokens htok hlen
    exact ⟨[], by simp [expandLoop], by simp [expandLoop],
      htok, hlen, by simp⟩
  | cons mid rest ih =>
    intro items tokens htok hlen
    by_cases h1 : payload.budget.max_items ≤ items.length
    · rw [expandLoop_cons_full now s payload mid rest items tokens h1]
      exact ⟨[], by simp, by simp, htok, hlen, by simp⟩
    · cases hins : inspect now s payload.tenant_id payload.agent_id
          payload.scope mid with
      | none =>
        rw [expandLoop_cons_invisible now s payload mid rest items tokens h1 hins]
        obtain ⟨app, ha1, ha2, ha3, ha4, ha5⟩ := ih items tokens htok hlen
        exact ⟨app, ha1, ha2, ha3, ha4,
          fun it hit =>
            let ⟨m2, hm2, d, hd, hde⟩ := ha5 it hit
            ⟨m2, List.mem_cons_of_mem _ hm2, d, hd, hde⟩⟩
      | some d =>
        by_cases h2 : payload.budget.max_tokens
            < tokens + expansion_tokens d.text
        · rw [expandLoop_cons_skip now s payload mid rest items tokens d h1 hins h2]
          obtain ⟨app, ha1, ha2, ha3, ha4, ha5⟩ := ih items tokens htok hlen
          exact ⟨app, ha1, ha2, ha3, ha4,
            fun it hit =>
              let ⟨m2, hm2, d2, hd2, hde2⟩ := ha5 it hit
              ⟨m2, List.mem_cons_of_mem _ hm2, d2, hd2, hde2⟩⟩
        · rw [expandLoop_cons_take now s payload mid rest items tokens d h1 hins h2]
          obtain ⟨app, ha1, ha2, ha3, ha4, ha5⟩ :=
            ih (items ++ [snippet_of_details d])
              (tokens + expansion_tokens d.text)
              (Nat.le_of_not_lt h2)
              (by
                rw [List.length_append]
                exact Nat.succ_le_of_lt (Nat.lt_of_not_le h1))
          refine ⟨snippet_of_details d :: app, ?_, ?_, ha3, ha4, ?_⟩
          · rw [ha1, List.append_assoc]
            rfl
          · rw [ha2, List.map_cons, List.sum_cons]
            have hde : expansion_tokens (snippet_of_details d).text
                = expansion_tokens d.text := rfl
            rw [hde]
            omega
          · intro it hit
            rcases List.mem_cons.mp hit with h | h
            · exact ⟨mid, List.mem_cons_self mid rest, d, hins, h⟩
            · obtain ⟨m2, hm2, d2, hd2, hde2⟩ := ha5 it h
              exact ⟨m2, List.mem_cons_of_mem _ hm2, d2, hd2, hde2⟩

/-- Claim C8 (amended: the expansion loop accounts tokens with
`max(1, len(text.split()))` — a whitespace word count — rather than with
`estimate_tokens`): starting from a base response within budget, the
graph-augmented response is the base items plus appended snippets, each
materialized through `inspect` under the original tenant/agent/scope
(invisible candidates are skipped); `composed_tokens_estimate` grows by
the split-token estimate of each appended item, stays at most
`max_tokens`, the item count stays at most `max_items`, and the conflicts
are preserved. -/
theorem graph_expand_accounting (now : Int) (s : StoreState)
    (payload : RecallRequest) (base : RecallResponse) (cands : List String)
    (htok : base.composed_tokens_estimate ≤ payload.budget.max_tokens)
    (hlen : base.items.length ≤ payload.budget.max_items) :
    (∃ appended,
      (graph_expand now s payload base cands).items = base.items ++ appended ∧
      (graph_expand now s payload base cands).composed_tokens_estimate
        = base.composed_tokens_estimate
          + (appended.map (fun it => expansion_tokens it.text)).sum ∧
      (∀ it ∈ appended, ∃ mid ∈ cands, ∃ d,
        inspect now s payload.tenant_id payload.agent_id payload.scope mid
          = some d ∧ it = snippet_of_details d)) ∧
    (graph_expand now s payload base cands).composed_tokens_estimate
      ≤ payload.budget.max_tokens ∧
    (graph_expand now s payload base cands).items.length
      ≤ payload.budget.max_items ∧
    (graph_expand now s payload base cands).conflicts = base.conflicts := by
  obtain ⟨app, ha1, ha2, ha3, ha4, ha5⟩ :=
    expandLoop_spec now s payload cands base.items
      base.composed_tokens_estimate htok hlen
  exact ⟨⟨app, ha1, ha2, ha5⟩, ha3, ha4, rfl⟩

/-- Concrete record for the C8 counterexample: four words, visible to
everyone in tenant `t`. -/
def c8Record : MemoryRecord :=
  { memory_id := "g1", tenant_id := "t", agent_id := "a"
    type := MemoryType.FACT, scope := Scope.GLOBAL
    text := "alpha beta gamma delta"
    trust_level := TrustLevel.TRUSTED_TOOL, confidence := 1
    salience := 1, source_ref := none, created_at := 0
    expires_at := none, tombstoned := false }

/-- Store holding just `c8Record`. -/
def c8Store : StoreState := { records := [c8Record], idempotency := [] }

/-- Recall request whose type filter empties the base recall, leaving
the whole budget to the graph expansion. -/
def c8Payload : RecallRequest :=
  { tenant_id := "t", agent_id := "b", query := "zzz"
    scope := Scope.PRIVATE
    budget := { max_items := 2, max_tokens := 64 }
    filters := { trust_min := 0, types := some [] } }

/-- Claim C8, counterexample: the expansion loop charges
`max(1, len(text.split())) = 4` tokens for the appended four-word
snippet, while `estimate_tokens` gives `int(4 * 1.3) = 5`; the final
response therefore has `composed_tokens_estimate = 4` but
`sum(estimate_tokens(item.text)) = 5`, breaking the claimed equality. -/
theorem c8_base_empty :
    recallMem 0 c8Store c8Payload
      = { items := [], composed_tokens_estimate := 0, conflicts := [] } := by
  have hcand : recallCandidates 0 c8Store c8Payload = [] := by decide
  unfold recallMem pack_recall
  rw [hcand]
  simp [sortByScoreDesc, List.mergeSort_nil, packGo, detect_conflicts,
    detect_conflicts_pairs]

theorem graph_expand_token_counterexample :
    (graph_expand 0 c8Store c8Payload (recallMem 0 c8Store c8Payload)
        ["g1"]).composed_tokens_estimate = 4 ∧
    ((graph_expand 0 c8Store c8Payload (recallMem 0 c8Store c8Payload)
        ["g1"]).items.map (fun it => estimate_tokens it.text)).sum = 5 := by
  rw [c8_base_empty]
  have hitems : (graph_expand 0 c8Store c8Payload
      { items := [], composed_tokens_estimate := 0, conflicts := [] }
      ["g1"]).items
      = [snippet_of_details (to_details c8Record)] := by decide
  have hcomp : (graph_expand 0 c8Store c8Payload
      { items := [], composed_tokens_estimate := 0, conflicts := [] }
      ["g1"]).composed_tokens_estimate = 4 := by decide
  refine ⟨hcomp, ?_⟩
  rw [hitems]
  have htext : (snippet_of_details (to_details c8Record)).text
      = "alpha beta gamma delta" := rfl
  simp only [List.map_cons, List.map_nil, List.sum_cons, List.sum_nil, htext]
  rw [estimate_tokens_eq_floor]
  decide

/-- Witness for `graph_expand_accounting` at the concrete C8 scenario. -/
theorem graph_expand_accounting_witness :
    (recallMem 0 c8Store c8Payload).composed_tokens_estimate
        ≤ c8Payload.budget.max_tokens ∧
    (graph_expand 0 c8Store c8Payload (recallMem 0 c8Store c8Payload)
        ["g1"]).composed_tokens_estimate ≤ c8Payload.budget.max_tokens := by
  have h := graph_expand_accounting 0 c8Store c8Payload
    (recallMem 0 c8Store c8Payload) ["g1"]
    (by rw [c8_base_empty]; decide) (by rw [c8_base_empty]; decide)
  exact ⟨by rw [c8_base_empty]; decide, h.2.1⟩

/-! ### Claim C6 — canary version selection -/

/-- Validation of the bucket pipeline on a concrete key:
`sha256("reranker:t1")` starts `3b94087e`, and
`0x3b94087e = 999557246 ≡ 46 (mod 100)`. -/
theorem stable_bucket_reranker_t1 : stable_bucket "reranker:t1" = 46 := by
  rfl

/-- Claim C6: `select_version(kind, tenant_id)` is a function of
`(kind, tenant_id, state)` decided in order — no canary gives
`(active, "active")`; an allowlisted tenant gets
`(canary, "canary_allowlist")`; a non-positive rollout gives
`(active, "active")`; otherwise the tenant gets
`(canary, "canary_percent")` exactly when the first 32 bits of
`sha256("<kind>:<tenant_id>")` reduced mod 100 are below
`rollout_percent`, else `(active, "active")`. -/
theorem select_version_routing (kind tenant : String) (st : ModelState) :
    (st.canary_version = none →
      select_version kind tenant st = (st.active_version, "active")) ∧
    (∀ c, st.canary_version = some c →
      (tenant ∈ st.tenant_allowlist →
        select_version kind tenant st = (c, "canary_allowlist")) ∧
      (tenant ∉ st.tenant_allowlist → st.rollout_percent ≤ 0 →
        select_version kind tenant st = (st.active_version, "active")) ∧
      (tenant ∉ st.tenant_allowlist → 0 < st.rollout_percent →
        ((((sha256Words (strBytes (kind ++ ":" ++ tenant))).headD 0 % 100 : ℕ) : ℤ)
            < st.rollout_percent →
          select_version kind tenant st = (c, "canary_percent")) ∧
        (st.rollout_percent
            ≤ (((sha256Words (strBytes (kind ++ ":" ++ tenant))).headD 0 % 100 : ℕ) : ℤ) →
          select_version kind tenant st = (st.active_version, "active")))) := by
  constructor
  · intro hc
    simp [select_version, hc]
  · intro c hc
    refine ⟨?_, ?_, ?_⟩
    · intro hin
      simp [select_version, hc, hin]
    · intro hout hle
      simp [select_version, hc, hout, hle]
    · intro hout hpos
      constructor
      · intro hlt
        simp only [select_version, hc, stable_bucket]
        rw [if_neg hout, if_neg (not_le.mpr hpos), if_pos hlt]
      · intro hge
        simp only [select_version, hc, stable_bucket]
        rw [if_neg hout, if_neg (not_le.mpr hpos), if_neg (not_lt.mpr hge)]

/-- Concrete registry state for the C6 witness: full-percent canary. -/
def c6State : ModelState :=
  { active_version := "reranker-baseline-v1"
    canary_version := some "reranker-canary-v2"
    rollout_percent := 100
    tenant_allowlist := [] }

/-- Witness for `select_version_routing`: with a 100% rollout every
bucket is below the threshold, so the canary is selected by percent. -/
theorem select_version_routing_witness :
    select_version "reranker" "t1" c6State
      = ("reranker-canary-v2", "canary_percent") := by
  have h := ((select_version_routing "reranker" "t1" c6State).2
    "reranker-canary-v2" rfl).2.2 (by decide) (by decide)
  have hbnd : ((sha256Words (strBytes ("reranker" ++ ":" ++ "t1"))).headD 0 % 100 : ℕ)
      < 100 := Nat.mod_lt _ (by norm_num)
  exact h.1 (show (((sha256Words (strBytes ("reranker" ++ ":" ++ "t1"))).headD 0
    % 100 : ℕ) : ℤ) < (100 : ℤ) by exact_mod_cast hbnd)

/-! ### Claim C5 — job retry, dead letters, attempt bounds -/

theorem executeInMemory_notFound (s : JobState) (job_id : String)
    (outcome : ExecOutcome) (now : Int)
    (hf : findJob s job_id = none) :
    executeInMemory s job_id outcome now = s := by
  simp only [executeInMemory, hf]

theorem executeInMemory_success (s : JobState) (job_id : String)
    (job : JobRecord) (now : Int)
    (hf : findJob s job_id = some job) :
    executeInMemory s job_id none now =
      updateJob s job_id (fun _ => { job with
        status := JobStatus.COMPLETED
        started_at := some now
        finished_at := some now
        result := some ()
        error := none
        attempts := job.attempts + 1 }) := by
  simp only [executeInMemory, hf]

theorem executeInMemory_retry (s : JobState) (job_id : String)
    (job : JobRecord) (e : String) (now : Int)
    (hf : findJob s job_id = some job)
    (hlt : job.attempts + 1 < job.max_attempts) :
    executeInMemory s job_id (some e) now =
      { updateJob s job_id (fun _ => { job with
          status := JobStatus.QUEUED
          started_at := some now
          attempts := job.attempts + 1
          error := some e }) with
        queue := s.queue ++ [job_id] } := by
  simp only [executeInMemory, hf]
  rw [if_pos hlt]

theorem executeInMemory_fail (s : JobState) (job_id : String)
    (job : JobRecord) (e : String) (now : Int)
    (hf : findJob s job_id = some job)
    (hge : ¬ job.attempts + 1 < job.max_attempts) :
    executeInMemory s job_id (some e) now =
      { updateJob s job_id (fun _ => { job with
          status := JobStatus.FAILED
          started_at := some now
          finished_at := some now
          attempts := job.attempts + 1
          error := some e }) with
        dead_letters := s.dead_letters ++ [job_id] } := by
  simp only [executeInMemory, hf]
  rw [if_neg hge]

theorem findJob_updateJob (s : JobState) (id : String) (f : JobRecord → JobRecord)
    (hid : ∀ j, j.job_id = id → (f j).job_id = id) :
    findJob (updateJob s id f) id = (findJob s id).map f := by
  unfold findJob updateJob
  have h := find?_map_update s.jobs (fun j => decide (j.job_id = id)) f
    (fun a ha => by
      simp only [decide_eq_true_eq] at ha ⊢
      exact hid a ha)
  simp only [decide_eq_true_eq] at h
  exact h

/-- Well-formedness of a job-manager state, maintained by the queue
discipline: the queue holds no duplicate ids, every job respects
`attempts ≤ max_attempts`, and every job whose id sits in the queue is
`queued` with `attempts < max_attempts` and no `finished_at`. -/
def JobWF (s : JobState) : Prop :=
  s.queue.Nodup ∧
  (∀ j ∈ s.jobs, j.attempts ≤ j.max_attempts) ∧
  (∀ j ∈ s.jobs, j.job_id ∈ s.queue →
    j.status = JobStatus.QUEUED ∧ j.attempts < j.max_attempts ∧
      j.finished_at = none)

theorem JobWF_enqueue (s : JobState) (job_id : String) (kind : JobKind)
    (tenant_id agent_id : String) (default_max_attempts : Nat)
    (max_attempts : Option Nat) (now : Int)
    (h : JobWF s) (hq : job_id ∉ s.queue)
    (hj : ∀ j ∈ s.jobs, j.job_id ≠ job_id) :
    JobWF (enqueueJob s job_id kind tenant_id agent_id default_max_attempts
      max_attempts now) := by
  obtain ⟨h1, h2, h3⟩ := h
  refine ⟨?_, ?_, ?_⟩
  · simp only [enqueueJob, List.nodup_append, List.nodup_cons, List.nodup_nil]
    exact ⟨h1, by simp, by simpa using hq⟩
  · intro j hjm
    simp only [enqueueJob, List.mem_append, List.mem_singleton] at hjm
    rcases hjm with hjm | hjm
    · exact h2 j hjm
    · subst hjm
      simp only
      cases max_attempts with
      | none => exact Nat.zero_le _
      | some m => exact Nat.zero_le _
  · intro j hjm hjq
    simp only [enqueueJob, List.mem_append, List.mem_singleton] at hjm
    rcases hjm with hjm | hjm
    · simp only [enqueueJob, List.mem_append, List.mem_singleton] at hjq
      rcases hjq with hjq | hjq
      · exact h3 j hjm hjq
      · exact absurd hjq (hj j hjm)
    · subst hjm
      refine ⟨rfl, ?_, rfl⟩
      simp only
      cases max_attempts with
      | none => exact Nat.lt_of_lt_of_le Nat.one_pos (le_max_left 1 _)
      | some m => exact Nat.lt_of_lt_of_le Nat.one_pos (le_max_left 1 _)

theorem JobWF_processNext (s : JobState) (outcome : ExecOutcome) (now : Int)
    (h : JobWF s) : JobWF (processNext s outcome now).1 := by
  obtain ⟨h1, h2, h3⟩ := h
  cases hq : s.queue with
  | nil =>
    simp only [processNext, hq]
    exact ⟨h1, h2, h3⟩
  | cons job_id rest =>
    have h1r : rest.Nodup ∧ job_id ∉ rest := by
      rw [hq] at h1
      exact ⟨h1.of_cons, (List.nodup_cons.mp h1).1⟩
    simp only [processNext, hq]
    cases hf : findJob { s with queue := rest } job_id with
    | none =>
      rw [executeInMemory_notFound _ _ _ _ hf]
      refine ⟨h1r.1, h2, ?_⟩
      intro j hj hjq
      exact h3 j hj (by rw [hq]; exact List.mem_cons_of_mem _ hjq)
    | some j0 =>
      have hf2 : List.find? (fun j => decide (j.job_id = job_id)) s.jobs
          = some j0 := hf
      have hj0mem : j0 ∈ s.jobs := List.mem_of_find?_eq_some hf2
      have hj0id : j0.job_id = job_id := of_decide_eq_true
        (@List.find?_some JobRecord (fun j => decide (j.job_id = job_id)) j0
          s.jobs hf2)
      have hj0inv := h3 j0 hj0mem (by rw [hq, hj0id]; exact List.mem_cons_self _ _)
      obtain ⟨hj0st, hj0lt, hj0fin⟩ := hj0inv
      cases outcome with
      | none =>
        rw [executeInMemory_success _ _ j0 now hf]
        refine ⟨h1r.1, ?_, ?_⟩
        · intro j2 hj2
          simp only [updateJob, List.mem_map] at hj2
          obtain ⟨j, hj, hgj⟩ := hj2
          by_cases hjid : j.job_id = job_id
          · rw [if_pos hjid] at hgj
            rw [← hgj]
            exact Nat.succ_le_of_lt hj0lt
          · rw [if_neg hjid] at hgj
            rw [← hgj]
            exact h2 j hj
        · intro j2 hj2 hj2q
          simp only [updateJob, List.mem_map] at hj2
          obtain ⟨j, hj, hgj⟩ := hj2
          by_cases hjid : j.job_id = job_id
          · rw [if_pos hjid] at hgj
            rw [← hgj] at hj2q
            simp only at hj2q
            rw [hj0id] at hj2q
            exact absurd hj2q h1r.2
          · rw [if_neg hjid] at hgj
            rw [← hgj] at hj2q ⊢
            exact h3 j hj (by rw [hq]; exact List.mem_cons_of_mem _ hj2q)
      | some e =>
        by_cases hlt : j0.attempts + 1 < j0.max_attempts
        · rw [executeInMemory_retry _ _ j0 e now hf hlt]
          refine ⟨?_, ?_, ?_⟩
          · simp only [updateJob]
            simp only [List.nodup_append, List.nodup_cons, List.nodup_nil]
            exact ⟨h1r.1, by simp, by simpa using h1r.2⟩
          · intro j2 hj2
            simp only [updateJob, List.mem_map] at hj2
            obtain ⟨j, hj, hgj⟩ := hj2
            by_cases hjid : j.job_id = job_id
            · rw [if_pos hjid] at hgj
              rw [← hgj]
              exact Nat.le_of_lt hlt
            · rw [if_neg hjid] at hgj
              rw [← hgj]
              exact h2 j hj
          · intro j2 hj2 hj2q
            simp only [updateJob, List.mem_map] at hj2
            obtain ⟨j, hj, hgj⟩ := hj2
            by_cases hjid : j.job_id = job_id
            · rw [if_pos hjid] at hgj
              rw [← hgj]
              exact ⟨rfl, hlt, hj0fin⟩
            · rw [if_neg hjid] at hgj
              rw [← hgj] at hj2q ⊢
              simp only [updateJob] at hj2q
              rcases List.mem_append.mp hj2q with hin | hin
              · exact h3 j hj (by rw [hq]; exact List.mem_cons_of_mem _ hin)
              · rw [List.mem_singleton] at hin
                exact absurd hin hjid
        · rw [executeInMemory_fail _ _ j0 e now hf hlt]
          refine ⟨h1r.1, ?_, ?_⟩
          · intro j2 hj2
            simp only [updateJob, List.mem_map] at hj2
            obtain ⟨j, hj, hgj⟩ := hj2
            by_cases hjid : j.job_id = job_id
            · rw [if_pos hjid] at hgj
              rw [← hgj]
              exact Nat.succ_le_of_lt hj0lt
            · rw [if_neg hjid] at hgj
              rw [← hgj]
              exact h2 j hj
          · intro j2 hj2 hj2q
            simp only [updateJob, List.mem_map] at hj2
            obtain ⟨j, hj, hgj⟩ := hj2
            by_cases hjid : j.job_id = job_id
            · rw [if_pos hjid] at hgj
              rw [← hgj] at hj2q
              simp only at hj2q
              rw [hj0id] at hj2q
              exact absurd hj2q h1r.2
            · rw [if_neg hjid] at hgj
              rw [← hgj] at hj2q ⊢
              exact h3 j hj (by rw [hq]; exact List.mem_cons_of_mem _ hj2q)

/-- Single queued job with the given attempt count, as produced by
enqueueing and zero or more retries. -/
def pendingJob (job_id : String) (kind : JobKind) (tenant_id agent_id : String)
    (M : Nat) (created : Int) (a : Nat) (st : Option Int)
    (er : Option String) : JobRecord :=
  { job_id := job_id, kind := kind, tenant_id := tenant_id
    agent_id := agent_id, status := JobStatus.QUEUED, created_at := created
    started_at := st, finished_at := none, result := none, error := er
    attempts := a, max_attempts := M }

/-- Manager state holding a single queued job. -/
def pendingState (job_id : String) (kind : JobKind) (tenant_id agent_id : String)
    (M : Nat) (created : Int) (a : Nat) (st : Option Int)
    (er : Option String) : JobState :=
  { jobs := [pendingJob job_id kind tenant_id agent_id M created a st er]
    queue := [job_id], dead_letters := [] }

/-- Manager state holding the single job after completion. -/
def completedState (job_id : String) (kind : JobKind) (tenant_id agent_id : String)
    (M : Nat) (created : Int) (a : Nat) (now : Int) : JobState :=
  { jobs := [{ job_id := job_id, kind := kind, tenant_id := tenant_id
               agent_id := agent_id, status := JobStatus.COMPLETED
               created_at := created, started_at := some now
               finished_at := some now, result := some (), error := none
               attempts := a, max_attempts := M }]
    queue := [], dead_letters := [] }

theorem enqueue_empty_pending (job_id : String) (kind : JobKind)
    (tenant_id agent_id : String) (dmax : Nat) (now : Int) :
    enqueueJob JobState.empty job_id kind tenant_id agent_id dmax none now
      = pendingState job_id kind tenant_id agent_id (max 1 dmax) now 0
          none none := by
  rfl

theorem findJob_pending (job_id : String) (kind : JobKind)
    (tenant_id agent_id : String) (M : Nat) (created : Int) (a : Nat)
    (st : Option Int) (er : Option String) (q : List String) :
    findJob { jobs := [pendingJob job_id kind tenant_id agent_id M created a st er]
              queue := q, dead_letters := [] } job_id
      = some (pendingJob job_id kind tenant_id agent_id M created a st er) := by
  simp [findJob, List.find?_cons, pendingJob]

theorem processNext_pending_success (job_id : String) (kind : JobKind)
    (tenant_id agent_id : String) (M : Nat) (created : Int) (a : Nat)
    (st : Option Int) (er : Option String) (now : Int) :
    processNext (pendingState job_id kind tenant_id agent_id M created a st er)
        none now
      = (completedState job_id kind tenant_id agent_id M created (a + 1) now,
         true) := by
  simp only [processNext, pendingState]
  rw [executeInMemory_success _ _ _ now (findJob_pending _ _ _ _ _ _ _ _ _ _)]
  simp [updateJob, pendingJob, completedState]

theorem processNext_pending_fail (job_id : String) (kind : JobKind)
    (tenant_id agent_id : String) (M : Nat) (created : Int) (a : Nat)
    (st : Option Int) (er : Option String) (e : String) (now : Int)
    (hlt : a + 1 < M) :
    processNext (pendingState job_id kind tenant_id agent_id M created a st er)
        (some e) now
      = (pendingState job_id kind tenant_id agent_id M created (a + 1)
          (some now) (some e), true) := by
  simp only [processNext, pendingState]
  rw [executeInMemory_retry _ _ _ e now (findJob_pending _ _ _ _ _ _ _ _ _ _) hlt]
  simp [updateJob, pendingJob, pendingState]

theorem runOutcomes_pending (job_id : String) (kind : JobKind)
    (tenant_id agent_id : String) (M : Nat) (created now : Int) (e : String) :
    ∀ (k a : Nat) (st : Option Int) (er : Option String), a + k < M →
    runOutcomes (pendingState job_id kind tenant_id agent_id M created a st er)
        (List.replicate k (some e) ++ [none]) now
      = completedState job_id kind tenant_id agent_id M created (a + k + 1)
          now := by
  intro k
  induction k with
  | zero =>
    intro a st er ha
    rw [List.replicate_zero, List.nil_append]
    rw [runOutcomes]
    rw [processNext_pending_success]
    rw [runOutcomes]
  | succ k ih =>
    intro a st er ha
    rw [List.replicate_succ, List.cons_append]
    rw [runOutcomes]
    rw [processNext_pending_fail _ _ _ _ _ _ _ _ _ _ _ (by omega)]
    have := ih (a + 1) (some now) (some e) (by omega)
    rw [this]
    congr 1
    omega

theorem processNext_failed_at_max (s : JobState) (outcome : ExecOutcome)
    (now : Int) (h : JobWF s) :
    ∀ j2 ∈ (processNext s outcome now).1.jobs, j2.status = JobStatus.FAILED →
      (∀ j ∈ s.jobs, j.job_id = j2.job_id → j.status ≠ JobStatus.FAILED) →
      j2.attempts = j2.max_attempts := by
  obtain ⟨h1, h2, h3⟩ := h
  cases hq : s.queue with
  | nil =>
    simp only [processNext, hq]
    intro j2 hj2 hst hprev
    exact absurd hst (hprev j2 hj2 rfl)
  | cons job_id rest =>
    simp only [processNext, hq]
    cases hf : findJob { s with queue := rest } job_id with
    | none =>
      rw [executeInMemory_notFound _ _ _ _ hf]
      intro j2 hj2 hst hprev
      exact absurd hst (hprev j2 hj2 rfl)
    | some j0 =>
      have hf2 : List.find? (fun j => decide (j.job_id = job_id)) s.jobs
          = some j0 := hf
      have hj0mem : j0 ∈ s.jobs := List.mem_of_find?_eq_some hf2
      have hj0id : j0.job_id = job_id := of_decide_eq_true
        (@List.find?_some JobRecord (fun j => decide (j.job_id = job_id)) j0
          s.jobs hf2)
      have hj0lt : j0.attempts < j0.max_attempts :=
        (h3 j0 hj0mem (by rw [hq, hj0id]; exact List.mem_cons_self _ _)).2.1
      cases outcome with
      | none =>
        rw [executeInMemory_success _ _ j0 now hf]
        intro j2 hj2 hst hprev
        simp only [updateJob, List.mem_map] at hj2
        obtain ⟨j, hj, hgj⟩ := hj2
        by_cases hjid : j.job_id = job_id
        · rw [if_pos hjid] at hgj
          rw [← hgj] at hst
          cases hst
        · rw [if_neg hjid] at hgj
          rw [← hgj] at hst hprev
          exact absurd hst (hprev j hj rfl)
      | some e =>
        by_cases hlt : j0.attempts + 1 < j0.max_attempts
        · rw [executeInMemory_retry _ _ j0 e now hf hlt]
          intro j2 hj2 hst hprev
          simp only [updateJob, List.mem_map] at hj2
          obtain ⟨j, hj, hgj⟩ := hj2
          by_cases hjid : j.job_id = job_id
          · rw [if_pos hjid] at hgj
            rw [← hgj] at hst
            cases hst
          · rw [if_neg hjid] at hgj
            rw [← hgj] at hst hprev
            exact absurd hst (hprev j hj rfl)
        · rw [executeInMemory_fail _ _ j0 e now hf hlt]
          intro j2 hj2 hst hprev
          simp only [updateJob, List.mem_map] at hj2
          obtain ⟨j, hj, hgj⟩ := hj2
          by_cases hjid : j.job_id = job_id
          · rw [← hgj, if_pos hjid]
            simp only
            omega
          · rw [if_neg hjid] at hgj
            rw [← hgj] at hst hprev
            exact absurd hst (hprev j hj rfl)

theorem mem_list_dead_letters (s : JobState) (tenant : String) (limit : Nat)
    (j : JobRecord)
    (hj : j ∈ (s.dead_letters.filterMap (fun id => findJob s id)).filter
      (fun j => decide (j.tenant_id = tenant)))
    (hlim : s.dead_letters.length ≤ limit) :
    j ∈ list_dead_letters s tenant limit := by
  unfold list_dead_letters
  have hlen1 : ((s.dead_letters.filterMap (fun id => findJob s id)).filter
      (fun j => decide (j.tenant_id = tenant))).length ≤ limit :=
    le_trans (le_trans (List.length_filter_le _ _)
      (List.length_filterMap_le _ _)) hlim
  set records := (s.dead_letters.filterMap (fun id => findJob s id)).filter
    (fun j => decide (j.tenant_id = tenant)) with hrec
  have hperm := List.mergeSort_perm records
    (fun a b => decide (deadLetterKey b ≤ deadLetterKey a))
  have hsortedlen : (records.mergeSort
      (fun a b => decide (deadLetterKey b ≤ deadLetterKey a))).length
      = records.length := hperm.length_eq
  rw [List.take_of_length_le]
  · exact hperm.mem_iff.mpr hj
  · rw [hsortedlen]
    exact le_trans hlen1 (le_max_right 1 limit)

/-- Claim C5: when a job's execution raises an exception, the manager
re-queues it (status `queued`, error recorded, `finished_at` still unset,
id pushed back on the queue) while the bumped attempt count is below
`max_attempts`, and otherwise marks it `failed` with `finished_at`
stamped and the id appended to the dead letters, whence it shows up in
`list_dead_letters` for its tenant; well-formedness — in particular
`attempts ≤ max_attempts` for every job — is preserved by enqueueing and
by every processing step, a job that just transitioned to `failed` has
`attempts = max_attempts`, and injecting `k < max_attempts` transient
failures before a success yields a `completed` job with
`attempts = k + 1`. -/
theorem job_retry_deadletter :
    (∀ (s : JobState) (job_id : String) (job : JobRecord) (e : String)
        (now : Int),
      findJob s job_id = some job → job.finished_at = none →
      job.attempts + 1 < job.max_attempts →
      findJob (executeInMemory s job_id (some e) now) job_id
        = some { job with
                 status := JobStatus.QUEUED
                 started_at := some now
                 attempts := job.attempts + 1
                 error := some e } ∧
      ({ job with
         status := JobStatus.QUEUED
         started_at := some now
         attempts := job.attempts + 1
         error := some e } : JobRecord).finished_at
        = none ∧
      (executeInMemory s job_id (some e) now).queue = s.queue ++ [job_id] ∧
      (executeInMemory s job_id (some e) now).dead_letters
        = s.dead_letters) ∧
    (∀ (s : JobState) (job_id : String) (job : JobRecord) (e : String)
        (now : Int),
      findJob s job_id = some job →
      ¬ job.attempts + 1 < job.max_attempts →
      findJob (executeInMemory s job_id (some e) now) job_id
        = some { job with
                 status := JobStatus.FAILED
                 started_at := some now
                 finished_at := some now
                 attempts := job.attempts + 1
                 error := some e } ∧
      (executeInMemory s job_id (some e) now).dead_letters
        = s.dead_letters ++ [job_id] ∧
      (∀ limit, s.dead_letters.length + 1 ≤ limit →
        ({ job with
           status := JobStatus.FAILED
           started_at := some now
           finished_at := some now
           attempts := job.attempts + 1
           error := some e } : JobRecord)
          ∈ list_dead_letters (executeInMemory s job_id (some e) now)
              job.tenant_id limit)) ∧
    (∀ (s : JobState) (job_id : String) (kind : JobKind)
        (tenant_id agent_id : String) (dmax : Nat) (mopt : Option Nat)
        (now : Int),
      JobWF s → job_id ∉ s.queue → (∀ j ∈ s.jobs, j.job_id ≠ job_id) →
      JobWF (enqueueJob s job_id kind tenant_id agent_id dmax mopt now)) ∧
    (∀ (s : JobState) (outcome : ExecOutcome) (now : Int),
      JobWF s → JobWF (processNext s outcome now).1) ∧
    (∀ (s : JobState) (outcome : ExecOutcome) (now : Int),
      JobWF s →
      ∀ j2 ∈ (processNext s outcome now).1.jobs,
        j2.status = JobStatus.FAILED →
        (∀ j ∈ s.jobs, j.job_id = j2.job_id → j.status ≠ JobStatus.FAILED) →
        j2.attempts = j2.max_attempts) ∧
    (∀ (job_id : String) (kind : JobKind) (tenant_id agent_id : String)
        (dmax : Nat) (now : Int) (e : String) (k : Nat),
      k < max 1 dmax →
      runOutcomes
          (enqueueJob JobState.empty job_id kind tenant_id agent_id dmax
            none now)
          (List.replicate k (some e) ++ [none]) now
        = completedState job_id kind tenant_id agent_id (max 1 dmax) now
            (k + 1) now) := by
  refine ⟨?_, ?_, ?_, ?_, ?_, ?_⟩
  · intro s job_id job e now hf hfin hlt
    have hf2 : List.find? (fun j => decide (j.job_id = job_id)) s.jobs
        = some job := hf
    have hjid : job.job_id = job_id := of_decide_eq_true
      (@List.find?_some JobRecord (fun j => decide (j.job_id = job_id)) job
        s.jobs hf2)
    rw [executeInMemory_retry _ _ job e now hf hlt]
    refine ⟨?_, hfin, rfl, rfl⟩
    have heq : findJob { updateJob s job_id
        (fun _ => { job with
                    status := JobStatus.QUEUED
                    started_at := some now
                    attempts := job.attempts + 1
                    error := some e }) with
        queue := s.queue ++ [job_id] } job_id
        = findJob (updateJob s job_id
          (fun _ => { job with
                      status := JobStatus.QUEUED
                      started_at := some now
                      attempts := job.attempts + 1
                      error := some e })) job_id :=
      rfl
    rw [heq, findJob_updateJob s job_id
      (fun _ => { job with
                  status := JobStatus.QUEUED
                  started_at := some now
                  attempts := job.attempts + 1
                  error := some e })
      (fun j hj => hjid), hf]
    rfl
  · intro s job_id job e now hf hge
    have hf2 : List.find? (fun j => decide (j.job_id = job_id)) s.jobs
        = some job := hf
    have hjid : job.job_id = job_id := of_decide_eq_true
      (@List.find?_some JobRecord (fun j => decide (j.job_id = job_id)) job
        s.jobs hf2)
    rw [executeInMemory_fail _ _ job e now hf hge]
    have hfound : findJob { updateJob s job_id
        (fun _ => { job with
                    status := JobStatus.FAILED
                    started_at := some now
                    finished_at := some now
                    attempts := job.attempts + 1
                    error := some e }) with
        dead_letters := s.dead_letters ++ [job_id] } job_id
        = some { job with
                 status := JobStatus.FAILED
                 started_at := some now
                 finished_at := some now
                 attempts := job.attempts + 1
                 error := some e } := by
      have heq2 : findJob { updateJob s job_id
          (fun _ => { job with
                      status := JobStatus.FAILED
                      started_at := some now
                      finished_at := some now
                      attempts := job.attempts + 1
                      error := some e }) with
          dead_letters := s.dead_letters ++ [job_id] } job_id
          = findJob (updateJob s job_id
            (fun _ => { job with
                        status := JobStatus.FAILED
                        started_at := some now
                        finished_at := some now
                        attempts := job.attempts + 1
                        error := some e })) job_id := rfl
      rw [heq2, findJob_updateJob s job_id
        (fun _ => { job with
                    status := JobStatus.FAILED
                    started_at := some now
                    finished_at := some now
                    attempts := job.attempts + 1
                    error := some e })
        (fun j hj => hjid), hf]
      rfl
    refine ⟨hfound, rfl, ?_⟩
    intro limit hlim
    apply mem_list_dead_letters
    · rw [List.mem_filter]
      constructor
      · rw [List.mem_filterMap]
        refine ⟨job_id, ?_, hfound⟩
        simp only [updateJob]
        exact List.mem_append.mpr (Or.inr (List.mem_singleton.mpr rfl))
      · simp
    · simp only [updateJob, List.length_append, List.length_singleton]
      exact hlim
  · intro s job_id kind tenant_id agent_id dmax mopt now h hq hj
    exact JobWF_enqueue s job_id kind tenant_id agent_id dmax mopt now h hq hj
  · intro s outcome now h
    exact JobWF_processNext s outcome now h
  · intro s outcome now h
    exact processNext_failed_at_max s outcome now h
  · intro job_id kind tenant_id agent_id dmax now e k hk
    rw [enqueue_empty_pending]
    have := runOutcomes_pending job_id kind tenant_id agent_id (max 1 dmax)
      now now e k 0 none none (by omega)
    rw [this]
    congr 1
    omega

/-- Witness for `job_retry_deadletter`: one transient failure then a
success completes the job with two attempts. -/
theorem job_retry_deadletter_witness :
    runOutcomes (enqueueJob JobState.empty "j1" JobKind.CLEANUP "t" "a" 3
        none 0) (List.replicate 1 (some "boom") ++ [none]) 0
      = completedState "j1" JobKind.CLEANUP "t" "a" 3 0 2 0 :=
  job_retry_deadletter.2.2.2.2.2 "j1" JobKind.CLEANUP "t" "a" 3 0 "boom" 1
    (by decide)

end Brainstem
